import Mathlib

/-!
Verification of the token-lifecycle and workflow-orchestration core of the
digit-client-tools repository, as a shallow embedding in Lean.

Go strings are modelled as lists of Unicode scalar values (`Str := List Char`);
byte strings as `List Nat` with every element below 256.  Machine integers
(`int`, `int64`) are modelled as `Int` with explicit 64-bit range checks where
the Go standard library performs them.  Every HTTP interaction is modelled by
passing the environment's answer(s) explicitly and recording the requests the
code issues, so that sequencing and "carries the body" facts become provable
statements about the embedding.

Sources embedded:
  * digit-cli/pkg/config/config.go (jwt package: DecodeJWT, ExtractTenantID,
    ExtractClientID, IsTokenExpired)
  * digit-cli auth package (GetValidJWTToken, RefreshToken,
    GetAuthorizationHeader)
  * client-libraries/digit-go-client/digit/auth.go (GetJWTToken)
  * the digit workflow library (CreateProcess, CreateState, CreateAction)
  * digit-cli/cmd/createWorkflow.go (createWorkflowCmd.RunE orchestration)
-/

set_option maxRecDepth 10000

deriving instance DecidableEq for Except

/-- Go strings, modelled as lists of Unicode scalar values. -/
abbrev Str := List Char

/-- Model of Go `strings.Split(s, sep)` for a one-character separator:
splits at every occurrence of the separator; `Split("", sep) = [""]`. -/
def goSplit (sep : Char) : Str → List Str
  | [] => [[]]
  | c :: rest =>
    if c = sep then [] :: goSplit sep rest
    else
      match goSplit sep rest with
      | [] => [[c]]
      | g :: gs => (c :: g) :: gs

/-- Model of Go `strings.TrimSuffix(s, "/")`: drops one trailing slash. -/
def trimSuffixSlash (s : Str) : Str :=
  if s.getLastD ' ' = '/' then s.dropLast else s

/-- ASCII lower-casing of one character (Go's case-insensitive field match). -/
def toLowerAscii (c : Char) : Char :=
  if 'A' ≤ c ∧ c ≤ 'Z' then Char.ofNat (c.toNat + 32) else c

/-- ASCII-case-insensitive equality, modelling encoding/json's field-name
folding when matching object keys to struct tags. -/
def foldEq (a b : Str) : Bool :=
  a.map toLowerAscii = b.map toLowerAscii

/-- Decimal digit character for `d < 10`. -/
def digitChar (d : Nat) : Char := Char.ofNat (48 + d)

/-- Decimal representation of a natural number (as produced by Go's
`strconv`/`fmt` for non-negative integers). -/
def natLitAux : Nat → Nat → Str
  | 0, _ => []
  | fuel + 1, n =>
    if n < 10 then [digitChar n]
    else natLitAux fuel (n / 10) ++ [digitChar (n % 10)]

/-- Decimal representation of `n`; the fuel `n + 1` strictly dominates the
number of digits, so the inner recursion never exhausts it. -/
def natLit (n : Nat) : Str := natLitAux (n + 1) n

/-- Decimal representation of an integer (Go `%d` / json.Marshal of int64). -/
def intLit (i : Int) : Str :=
  if i < 0 then '-' :: natLit i.natAbs else natLit i.natAbs

/-- Numeric value of a decimal digit character, if it is one. -/
def digitVal (c : Char) : Option Nat :=
  if '0' ≤ c ∧ c ≤ '9' then some (c.toNat - 48) else none

/-- Value of a list of decimal digit characters, if all are digits. -/
def digitsVal : Str → Option Nat
  | [] => some 0
  | c :: cs =>
    match digitVal c with
    | none => none
    | some d =>
      match digitsVal cs with
      | none => none
      | some v => some (d * 10 ^ cs.length + v)

/-- Model of Go `strconv.ParseInt(s, 10, 64)` restricted to the inputs the
JSON decoder can pass it (an optional leading `-`, then decimal digits):
used by encoding/json when storing a JSON number into an `int64` field. -/
def goParseInt64 (s : Str) : Option Int :=
  match s with
  | [] => none
  | c :: ds =>
    if c = '-' then
      match ds, digitsVal ds with
      | _ :: _, some v => if v ≤ 2 ^ 63 then some (-(v : Int)) else none
      | _, _ => none
    else
      match digitsVal (c :: ds) with
      | some v => if v ≤ 2 ^ 63 - 1 then some (v : Int) else none
      | none => none

/-! ## Base64url (Go `encoding/base64`, `base64.URLEncoding`) -/

/-- The base64url alphabet. -/
def b64Alphabet : Str :=
  "ABCDEFGHIJKLMNOPQRSTUVWXYZabcdefghijklmnopqrstuvwxyz0123456789-_".data

/-- Character for a 6-bit group. -/
def b64Char (n : Nat) : Char := b64Alphabet.getD n 'A'

/-- 6-bit value of a base64url character, if it is in the alphabet. -/
def b64Val (c : Char) : Option Nat :=
  if 'A' ≤ c ∧ c ≤ 'Z' then some (c.toNat - 65)
  else if 'a' ≤ c ∧ c ≤ 'z' then some (c.toNat - 97 + 26)
  else if '0' ≤ c ∧ c ≤ '9' then some (c.toNat - 48 + 52)
  else if c = '-' then some 62
  else if c = '_' then some 63
  else none

/-- Unpadded (raw) base64url encoding of a byte sequence, as produced by
`base64.RawURLEncoding.EncodeToString` / a JWT producer. -/
def b64uEncode : List Nat → Str
  | [] => []
  | [b1] => [b64Char (b1 / 4), b64Char (b1 % 4 * 16)]
  | [b1, b2] =>
    [b64Char (b1 / 4), b64Char (b1 % 4 * 16 + b2 / 16), b64Char (b2 % 16 * 4)]
  | b1 :: b2 :: b3 :: rest =>
    b64Char (b1 / 4) :: b64Char (b1 % 4 * 16 + b2 / 16) ::
    b64Char (b2 % 16 * 4 + b3 / 64) :: b64Char (b3 % 64) :: b64uEncode rest

/-- The padding loop of `DecodeJWT`: `for len(payload)%4 != 0 { payload += "=" }`. -/
def padB64 (s : Str) : Str :=
  s ++ List.replicate ((4 - s.length % 4) % 4) '='

/-- Block-wise strict base64 decoding with `=`-padding accepted only at the
end, ignoring no characters; trailing bits in the final quantum are dropped
(Go's decoder is not strict about them). -/
def b64DecodeBlocks : Str → Option (List Nat)
  | [] => some []
  | c1 :: c2 :: c3 :: c4 :: rest =>
    match b64Val c1, b64Val c2 with
    | some v1, some v2 =>
      if c3 = '=' then
        if c4 = '=' ∧ rest = [] then some [v1 * 4 + v2 / 16] else none
      else
        match b64Val c3 with
        | some v3 =>
          if c4 = '=' then
            if rest = [] then some [v1 * 4 + v2 / 16, v2 % 16 * 16 + v3 / 4]
            else none
          else
            match b64Val c4 with
            | some v4 =>
              match b64DecodeBlocks rest with
              | some bs =>
                some ((v1 * 4 + v2 / 16) :: (v2 % 16 * 16 + v3 / 4) ::
                      (v3 % 4 * 64 + v4) :: bs)
              | none => none
            | none => none
        | none => none
    | _, _ => none
  | _ => none

/-- Model of Go `base64.URLEncoding.DecodeString`: newline characters are
ignored anywhere in the input, then the input is decoded in 4-character
quanta; a length that is not a multiple of 4, a character outside the
alphabet, or misplaced padding is a `CorruptInputError`. -/
def b64uDecodeGo (s : Str) : Option (List Nat) :=
  b64DecodeBlocks (s.filter (fun c => ¬(c = '\n' ∨ c = '\r')))

/-! ## UTF-8 (Go `unicode/utf8`) -/

/-- UTF-8 encoding of one Unicode scalar value. -/
def utf8EncodeChar (c : Char) : List Nat :=
  let n := c.toNat
  if n < 0x80 then [n]
  else if n < 0x800 then [0xC0 + n / 0x40, 0x80 + n % 0x40]
  else if n < 0x10000 then
    [0xE0 + n / 0x1000, 0x80 + n / 0x40 % 0x40, 0x80 + n % 0x40]
  else
    [0xF0 + n / 0x40000, 0x80 + n / 0x1000 % 0x40, 0x80 + n / 0x40 % 0x40,
     0x80 + n % 0x40]

/-- UTF-8 encoding of a string (Go's `[]byte(s)`). -/
def utf8Encode (s : Str) : List Nat := (s.map utf8EncodeChar).flatten

/-- The replacement character U+FFFD that Go substitutes for invalid UTF-8. -/
def replChar : Char := Char.ofNat 0xFFFD

/-- Is the byte a UTF-8 continuation byte (0x80..0xBF)? -/
def isCont (b : Nat) : Bool := 0x80 ≤ b ∧ b ≤ 0xBF

/-- Accepted second-byte range for a 3-byte sequence, per Go's
`utf8.acceptRanges` (lead 0xE0 narrows it, 0xED excludes surrogates). -/
def accept3 (lead b1 : Nat) : Bool :=
  if lead = 0xE0 then 0xA0 ≤ b1 ∧ b1 ≤ 0xBF
  else if lead = 0xED then 0x80 ≤ b1 ∧ b1 ≤ 0x9F
  else isCont b1

/-- Accepted second-byte range for a 4-byte sequence, per Go's
`utf8.acceptRanges` (lead 0xF0 and 0xF4 narrow it). -/
def accept4 (lead b1 : Nat) : Bool :=
  if lead = 0xF0 then 0x90 ≤ b1 ∧ b1 ≤ 0xBF
  else if lead = 0xF4 then 0x80 ≤ b1 ∧ b1 ≤ 0x8F
  else isCont b1

/-- Fuelled worker for `utf8DecodeLossy`; every step consumes at least one
byte, so fuel equal to the byte count never runs out. -/
def utf8DecodeLossyF : Nat → List Nat → Str
  | 0, _ => []
  | _, [] => []
  | fuel + 1, b :: rest =>
    if b < 0x80 then Char.ofNat b :: utf8DecodeLossyF fuel rest
    else if b < 0xC2 then replChar :: utf8DecodeLossyF fuel rest
    else if b ≤ 0xDF then
      match rest with
      | b1 :: rest2 =>
        if isCont b1 then
          Char.ofNat ((b - 0xC0) * 0x40 + (b1 - 0x80)) ::
            utf8DecodeLossyF fuel rest2
        else replChar :: utf8DecodeLossyF fuel (b1 :: rest2)
      | [] => [replChar]
    else if b ≤ 0xEF then
      match rest with
      | b1 :: b2 :: rest2 =>
        if accept3 b b1 ∧ isCont b2 then
          Char.ofNat ((b - 0xE0) * 0x1000 + (b1 - 0x80) * 0x40 + (b2 - 0x80)) ::
            utf8DecodeLossyF fuel rest2
        else replChar :: utf8DecodeLossyF fuel (b1 :: b2 :: rest2)
      | [b1] => replChar :: utf8DecodeLossyF fuel [b1]
      | [] => [replChar]
    else if b ≤ 0xF4 then
      match rest with
      | b1 :: b2 :: b3 :: rest2 =>
        if accept4 b b1 ∧ isCont b2 ∧ isCont b3 then
          Char.ofNat ((b - 0xF0) * 0x40000 + (b1 - 0x80) * 0x1000 +
            (b2 - 0x80) * 0x40 + (b3 - 0x80)) :: utf8DecodeLossyF fuel rest2
        else replChar :: utf8DecodeLossyF fuel (b1 :: b2 :: b3 :: rest2)
      | [b1, b2] => replChar :: utf8DecodeLossyF fuel [b1, b2]
      | [b1] => replChar :: utf8DecodeLossyF fuel [b1]
      | [] => [replChar]
    else replChar :: utf8DecodeLossyF fuel rest

/-- Lossy UTF-8 decoding with Go's `utf8.DecodeRune` semantics: every invalid
byte yields one U+FFFD and consumes exactly one byte.  This is how
`encoding/json` views the raw bytes of a string. -/
def utf8DecodeLossy (bs : List Nat) : Str := utf8DecodeLossyF bs.length bs

/-! ## JSON (Go `encoding/json`) -/

/-- JSON values; numbers keep their source literal, as encoding/json does
until a target type forces a conversion. -/
inductive Json where
  | null : Json
  | jbool : Bool → Json
  | num : Str → Json
  | str : Str → Json
  | arr : List Json → Json
  | obj : List (Str × Json) → Json

/-- JSON insignificant whitespace, per encoding/json's scanner. -/
def isJsonWs (c : Char) : Bool := c = ' ' ∨ c = '\t' ∨ c = '\n' ∨ c = '\r'

/-- Skip insignificant whitespace. -/
def skipWs : Str → Str
  | [] => []
  | c :: rest => if isJsonWs c then skipWs rest else c :: rest

/-- Value of one hexadecimal digit. -/
def hexVal (c : Char) : Option Nat :=
  if '0' ≤ c ∧ c ≤ '9' then some (c.toNat - 48)
  else if 'a' ≤ c ∧ c ≤ 'f' then some (c.toNat - 97 + 10)
  else if 'A' ≤ c ∧ c ≤ 'F' then some (c.toNat - 65 + 10)
  else none

/-- Value of a `\uXXXX` escape's four hex digits. -/
def hex4 (a b c d : Char) : Option Nat :=
  match hexVal a, hexVal b, hexVal c, hexVal d with
  | some va, some vb, some vc, some vd =>
    some (va * 4096 + vb * 256 + vc * 16 + vd)
  | _, _, _, _ => none

/-- Value of a simple (one-character) string escape, per the scanner's
accepted set. -/
def simpleEscape (c : Char) : Option Char :=
  if c = '"' then some '"'
  else if c = '\\' then some '\\'
  else if c = '/' then some '/'
  else if c = 'b' then some (Char.ofNat 8)
  else if c = 'f' then some (Char.ofNat 12)
  else if c = 'n' then some '\n'
  else if c = 'r' then some '\r'
  else if c = 't' then some '\t'
  else none

/-- Parse the remainder of a JSON string literal (the opening quote already
consumed), per Go's scanner (which rejects raw control characters and
malformed escapes) composed with `unquote` (which decodes escapes, combining
`\uXXXX` surrogate pairs and substituting U+FFFD for unpaired surrogates). -/
def parseJStrF : Nat → Str → Option (Str × Str)
  | 0, _ => none
  | _, [] => none
  | fuel + 1, c :: rest =>
    if c = '"' then some ([], rest)
    else if c = '\\' then
      match rest with
      | 'u' :: h1 :: h2 :: h3 :: h4 :: rest2 =>
        match hex4 h1 h2 h3 h4 with
        | none => none
        | some n =>
          if n < 0xD800 ∨ 0xE000 ≤ n then
            (parseJStrF fuel rest2).map (fun p => (Char.ofNat n :: p.1, p.2))
          else
            match rest2 with
            | q1 :: q2 :: g1 :: g2 :: g3 :: g4 :: rest3 =>
              match hex4 g1 g2 g3 g4 with
              | some m =>
                if q1 = '\\' ∧ q2 = 'u' ∧ n < 0xDC00 ∧ 0xDC00 ≤ m ∧ m < 0xE000
                then
                  (parseJStrF fuel rest3).map (fun p =>
                    (Char.ofNat (0x10000 + (n - 0xD800) * 0x400 + (m - 0xDC00))
                      :: p.1, p.2))
                else
                  (parseJStrF fuel (q1 :: q2 :: g1 :: g2 :: g3 :: g4 :: rest3)).map
                    (fun p => (replChar :: p.1, p.2))
              | none =>
                (parseJStrF fuel (q1 :: q2 :: g1 :: g2 :: g3 :: g4 :: rest3)).map
                  (fun p => (replChar :: p.1, p.2))
            | r2 => (parseJStrF fuel r2).map (fun p => (replChar :: p.1, p.2))
      | e :: rest2 =>
        match simpleEscape e with
        | some d => (parseJStrF fuel rest2).map (fun p => (d :: p.1, p.2))
        | none => none
      | [] => none
    else if c.toNat < 0x20 then none
    else (parseJStrF fuel rest).map (fun p => (c :: p.1, p.2))

/-- Parse the remainder of a JSON string literal with just enough fuel (each
step consumes at least one character, so `length` suffices). -/
def parseJStr (s : Str) : Option (Str × Str) := parseJStrF s.length s

/-- Is the character a decimal digit? -/
def isDigit (c : Char) : Bool := '0' ≤ c ∧ c ≤ '9'

/-- Parse the integer part of a JSON number: `0`, or a nonzero digit followed
by digits. -/
def parseIntPart (s : Str) : Option (Str × Str) :=
  match s with
  | [] => none
  | c :: r =>
    if c = '0' then some (['0'], r)
    else if isDigit c then
      some (c :: r.takeWhile isDigit, r.dropWhile isDigit)
    else none

/-- Parse an optional fraction part `.digits`; yields `[]` when absent. -/
def parseFracPart (s : Str) : Str × Str :=
  match s with
  | [] => ([], s)
  | c :: r =>
    if c = '.' then
      match r.takeWhile isDigit with
      | [] => ([], s)
      | run => ('.' :: run, r.dropWhile isDigit)
    else ([], s)

/-- Parse an optional exponent part `[eE][+-]?digits`; yields `[]` when
absent. -/
def parseExpPart (s : Str) : Str × Str :=
  match s with
  | e :: r =>
    if e = 'e' ∨ e = 'E' then
      let (sg, r2) :=
        match r with
        | '+' :: r3 => (['+'], r3)
        | '-' :: r3 => (['-'], r3)
        | _ => (([] : Str), r)
      match r2.takeWhile isDigit with
      | [] => ([], s)
      | run => (e :: sg ++ run, r2.dropWhile isDigit)
    else ([], s)
  | [] => ([], s)

/-- Parse a JSON number literal, returning the literal and the rest. -/
def parseNum (s : Str) : Option (Str × Str) :=
  let signSplit : Str × Str :=
    match s with
    | [] => ([], s)
    | c :: r => if c = '-' then (['-'], r) else ([], s)
  let sign := signSplit.1
  let s1 := signSplit.2
  match parseIntPart s1 with
  | none => none
  | some (ip, r1) =>
    let (fp, r2) := parseFracPart r1
    let (ep, r3) := parseExpPart r2
    some (sign ++ ip ++ fp ++ ep, r3)

mutual

/-- Parse one JSON value (no leading whitespace), fuel-bounded; `parseTop`
supplies fuel that the grammar can never exhaust on its input. -/
def parseValue : Nat → Str → Option (Json × Str)
  | 0, _ => none
  | fuel + 1, s =>
    match s with
    | [] => none
    | c :: r =>
      if c = 'n' then
        match r with
        | 'u' :: 'l' :: 'l' :: r2 => some (.null, r2)
        | _ => none
      else if c = 't' then
        match r with
        | 'r' :: 'u' :: 'e' :: r2 => some (.jbool true, r2)
        | _ => none
      else if c = 'f' then
        match r with
        | 'a' :: 'l' :: 's' :: 'e' :: r2 => some (.jbool false, r2)
        | _ => none
      else if c = '"' then (parseJStr r).map (fun p => (.str p.1, p.2))
      else if c = '[' then
        match skipWs r with
        | ']' :: r2 => some (.arr [], r2)
        | r2 =>
          match parseElems fuel r2 with
          | some (js, r3) => some (.arr js, r3)
          | none => none
      else if c = '{' then
        match skipWs r with
        | '}' :: r2 => some (.obj [], r2)
        | r2 =>
          match parseMembers fuel r2 with
          | some (ms, r3) => some (.obj ms, r3)
          | none => none
      else
        match parseNum (c :: r) with
        | some (lit, r2) => some (.num lit, r2)
        | none => none

/-- Parse one or more comma-separated array elements up to `]`. -/
def parseElems : Nat → Str → Option (List Json × Str)
  | 0, _ => none
  | fuel + 1, s =>
    match parseValue fuel s with
    | none => none
    | some (j, r) =>
      match skipWs r with
      | ',' :: r2 =>
        match parseElems fuel (skipWs r2) with
        | some (js, r3) => some (j :: js, r3)
        | none => none
      | ']' :: r2 => some ([j], r2)
      | _ => none

/-- Parse one or more `"key": value` members up to `}`. -/
def parseMembers : Nat → Str → Option (List (Str × Json) × Str)
  | 0, _ => none
  | fuel + 1, s =>
    match s with
    | '"' :: r =>
      match parseJStr r with
      | none => none
      | some (k, r1) =>
        match skipWs r1 with
        | ':' :: r2 =>
          match parseValue fuel (skipWs r2) with
          | none => none
          | some (v, r3) =>
            match skipWs r3 with
            | ',' :: r4 =>
              match parseMembers fuel (skipWs r4) with
              | some (ms, r5) => some ((k, v) :: ms, r5)
              | none => none
            | '}' :: r4 => some ([(k, v)], r4)
            | _ => none
        | _ => none
    | _ => none

end

/-- Model of a full `encoding/json` parse of a byte-slice-as-text: one value,
possibly surrounded by whitespace, and nothing else.  The fuel bound
`2 * length + 2` strictly dominates the recursion depth the grammar can reach
on its input (each two fuel levels consume at least one character). -/
def parseTop (s : Str) : Option Json :=
  match parseValue (2 * s.length + 2) (skipWs s) with
  | some (j, r) => if skipWs r = [] then some j else none
  | none => none

/-! ## JWT claims (digit-cli/pkg/config/config.go, package jwt) -/

/-- The claim set deserialised by `DecodeJWT` (struct `JWTClaims`). -/
structure JWTClaims where
  sub : Str := []
  iss : Str := []
  preferredUsername : Str := []
  email : Str := []
  name : Str := []
  givenName : Str := []
  familyName : Str := []
  exp : Int := 0
  iat : Int := 0
deriving DecidableEq

/-- Store one JSON object member into a `JWTClaims` under encoding/json's
rules: keys match struct tags ASCII-case-insensitively, `null` leaves the
field untouched, and a value of the wrong type is an `UnmarshalTypeError`
(`none` here). -/
def claimsSetField (c : JWTClaims) (k : Str) (v : Json) : Option JWTClaims :=
  if foldEq k ("sub".data) then
    match v with
    | .str s => some { c with sub := s }
    | .null => some c
    | _ => none
  else if foldEq k ("iss".data) then
    match v with
    | .str s => some { c with iss := s }
    | .null => some c
    | _ => none
  else if foldEq k ("preferred_username".data) then
    match v with
    | .str s => some { c with preferredUsername := s }
    | .null => some c
    | _ => none
  else if foldEq k ("email".data) then
    match v with
    | .str s => some { c with email := s }
    | .null => some c
    | _ => none
  else if foldEq k ("name".data) then
    match v with
    | .str s => some { c with name := s }
    | .null => some c
    | _ => none
  else if foldEq k ("given_name".data) then
    match v with
    | .str s => some { c with givenName := s }
    | .null => some c
    | _ => none
  else if foldEq k ("family_name".data) then
    match v with
    | .str s => some { c with familyName := s }
    | .null => some c
    | _ => none
  else if foldEq k ("exp".data) then
    match v with
    | .num lit => (goParseInt64 lit).map (fun n => { c with exp := n })
    | .null => some c
    | _ => none
  else if foldEq k ("iat".data) then
    match v with
    | .num lit => (goParseInt64 lit).map (fun n => { c with iat := n })
    | .null => some c
    | _ => none
  else some c

/-- Model of `json.Unmarshal(decoded, &claims)`: the top-level value must be
an object (or `null`, which leaves the zero value); members are folded in
order, later duplicates overwriting earlier ones. -/
def claimsFromJson : Json → Option JWTClaims
  | .null => some {}
  | .obj kvs =>
    kvs.foldl (fun acc kv => acc.bind (fun c => claimsSetField c kv.1 kv.2))
      (some {})
  | _ => none

/-- Error message of `DecodeJWT` when the token is not three segments. -/
def invalidJWTMsg : Str := "invalid JWT token format".data

/-- Error message family of `DecodeJWT` when base64 decoding fails. -/
def decodePayloadMsg : Str := "failed to decode JWT payload".data

/-- Error message family of `DecodeJWT` when the payload is not a
deserialisable claim set. -/
def parseClaimsMsg : Str := "failed to parse JWT claims".data

/-- Model of `jwt.DecodeJWT`: split on `.`, require exactly three segments,
pad the middle segment to a multiple of 4, base64url-decode it, and
unmarshal the bytes as a `JWTClaims`. -/
def DecodeJWT (token : Str) : Except Str JWTClaims :=
  match goSplit '.' token with
  | [_, payload, _] =>
    match b64uDecodeGo (padB64 payload) with
    | none => .error decodePayloadMsg
    | some bytes =>
      match parseTop (utf8DecodeLossy bytes) with
      | none => .error parseClaimsMsg
      | some j =>
        match claimsFromJson j with
        | some c => .ok c
        | none => .error parseClaimsMsg
  | _ => .error invalidJWTMsg

/-- Error message of `ExtractTenantID` when the issuer has no `/`. -/
def invalidIssuerMsg : Str := "invalid issuer format in JWT".data

/-- Error message of `ExtractTenantID` when the last issuer part is empty. -/
def noRealmMsg : Str := "could not extract realm from JWT issuer".data

/-- Model of `jwt.ExtractTenantID`: the realm is the part of the issuer URL
after the last `/`. -/
def ExtractTenantID (token : Str) : Except Str Str :=
  match DecodeJWT token with
  | .error e => .error e
  | .ok claims =>
    let parts := goSplit '/' claims.iss
    if parts.length < 2 then .error invalidIssuerMsg
    else
      let realm := parts.getLastD []
      if realm = [] then .error noRealmMsg
      else .ok realm

/-- Error message of `ExtractClientID` when the subject claim is empty. -/
def noSubMsg : Str := "no subject (sub) found in JWT token".data

/-- Model of `jwt.ExtractClientID`: the subject claim. -/
def ExtractClientID (token : Str) : Except Str Str :=
  match DecodeJWT token with
  | .error e => .error e
  | .ok claims =>
    if claims.sub = [] then .error noSubMsg
    else .ok claims.sub

/-- Model of `jwt.IsTokenExpired`; time is passed explicitly as Unix seconds
(`time.Now()`), and `time.Now().Add(30s).After(expiry)` is `now + 30 > exp`.
On an undecodable token Go returns `(true, err)`. -/
def IsTokenExpired (now : Int) (token : Str) : Bool × Except Str Unit :=
  match DecodeJWT token with
  | .error e => (true, .error e)
  | .ok claims => (decide (now + 30 > claims.exp), .ok ())

/-! ## JSON serialisation of a claim set (Go `json.Marshal(JWTClaims)`),
used to state the encode-then-decode round trip -/

/-- Lower-case hexadecimal digit. -/
def hexDigitLower (d : Nat) : Char :=
  if d < 10 then digitChar d else Char.ofNat (97 + d - 10)

/-- Go's JSON string escaping (with its default HTML escaping): quotes,
backslashes, control characters, `<`, `>`, `&`, and U+2028/U+2029. -/
def jsonEscapeChar (c : Char) : Str :=
  if c = '"' then ['\\', '"']
  else if c = '\\' then ['\\', '\\']
  else if c = '\n' then ['\\', 'n']
  else if c = '\r' then ['\\', 'r']
  else if c = '\t' then ['\\', 't']
  else if c.toNat < 0x20 ∨ c = '<' ∨ c = '>' ∨ c = '&' then
    ['\\', 'u', '0', '0', hexDigitLower (c.toNat / 16), hexDigitLower (c.toNat % 16)]
  else if c.toNat = 0x2028 then "\\u2028".data
  else if c.toNat = 0x2029 then "\\u2029".data
  else [c]

/-- Escape a whole string. -/
def escString (s : Str) : Str := (s.map jsonEscapeChar).flatten

/-- `json.Marshal` of a `JWTClaims` value: a compact object with the fields
in struct order. -/
def serializeClaims (c : JWTClaims) : Str :=
  "\x7b\"sub\":\"".data ++ escString c.sub ++
  "\",\"iss\":\"".data ++ escString c.iss ++
  "\",\"preferred_username\":\"".data ++ escString c.preferredUsername ++
  "\",\"email\":\"".data ++ escString c.email ++
  "\",\"name\":\"".data ++ escString c.name ++
  "\",\"given_name\":\"".data ++ escString c.givenName ++
  "\",\"family_name\":\"".data ++ escString c.familyName ++
  "\",\"exp\":".data ++ intLit c.exp ++
  ",\"iat\":".data ++ intLit c.iat ++ ['\x7d']

/-! ## Token endpoint client (digit-go-client digit/auth.go) and the CLI auth
layer (GetValidJWTToken / RefreshToken / GetAuthorizationHeader) -/

/-- The Keycloak token endpoint response struct (`TokenResponse`). -/
structure TokenResponse where
  accessToken : Str := []
  expiresIn : Int := 0
  refreshExpiresIn : Int := 0
  refreshToken : Str := []
  tokenType : Str := []
  notBeforePolicy : Int := 0
  sessionState : Str := []
  scope : Str := []
deriving DecidableEq

/-- Store one JSON object member into a `TokenResponse`, with the same
encoding/json rules as `claimsSetField`. -/
def tokenRespSetField (t : TokenResponse) (k : Str) (v : Json) :
    Option TokenResponse :=
  if foldEq k ("access_token".data) then
    match v with
    | .str s => some { t with accessToken := s }
    | .null => some t
    | _ => none
  else if foldEq k ("expires_in".data) then
    match v with
    | .num lit => (goParseInt64 lit).map (fun n => { t with expiresIn := n })
    | .null => some t
    | _ => none
  else if foldEq k ("refresh_expires_in".data) then
    match v with
    | .num lit =>
      (goParseInt64 lit).map (fun n => { t with refreshExpiresIn := n })
    | .null => some t
    | _ => none
  else if foldEq k ("refresh_token".data) then
    match v with
    | .str s => some { t with refreshToken := s }
    | .null => some t
    | _ => none
  else if foldEq k ("token_type".data) then
    match v with
    | .str s => some { t with tokenType := s }
    | .null => some t
    | _ => none
  else if foldEq k ("not-before-policy".data) then
    match v with
    | .num lit =>
      (goParseInt64 lit).map (fun n => { t with notBeforePolicy := n })
    | .null => some t
    | _ => none
  else if foldEq k ("session_state".data) then
    match v with
    | .str s => some { t with sessionState := s }
    | .null => some t
    | _ => none
  else if foldEq k ("scope".data) then
    match v with
    | .str s => some { t with scope := s }
    | .null => some t
    | _ => none
  else some t

/-- `json.Unmarshal(resp.Body(), &tokenResp)`. -/
def tokenRespFromJson : Json → Option TokenResponse
  | .null => some {}
  | .obj kvs =>
    kvs.foldl (fun acc kv => acc.bind (fun t => tokenRespSetField t kv.1 kv.2))
      (some {})
  | _ => none

/-- One form-encoded POST as issued by the resty client: target URL and the
form fields. -/
structure PostReq where
  url : Str
  form : List (Str × Str)
deriving DecidableEq

/-- The environment's answer to an HTTP call: a transport error, or a status
code with a response body. -/
abbrev HttpAnswer := Except Str (Nat × Str)

/-- The password-grant form data built by `digit.GetJWTToken`. -/
def passwordGrantForm (clientID clientSecret username password : Str) :
    List (Str × Str) :=
  [("grant_type".data, "password".data),
   ("client_id".data, clientID),
   ("client_secret".data, clientSecret),
   ("username".data, username),
   ("password".data, password)]

/-- The token endpoint URL built by `digit.GetJWTToken`. -/
def tokenEndpointURL (server realm : Str) : Str :=
  server ++ "/keycloak/realms/".data ++ realm ++
    "/protocol/openid-connect/token".data

/-- Model of `digit.GetJWTToken` (digit-go-client digit/auth.go): validate
the six parameters, POST the password grant, require status 200, parse the
body, and return the `access_token` field.  The returned list records the
POSTs actually issued. -/
def GetJWTToken (server realm clientID clientSecret username password : Str)
    (answer : HttpAnswer) : Except Str Str × List PostReq :=
  if server = [] then (.error ("server cannot be empty".data), [])
  else if realm = [] then (.error ("realm cannot be empty".data), [])
  else if clientID = [] then (.error ("clientID cannot be empty".data), [])
  else if clientSecret = [] then
    (.error ("clientSecret cannot be empty".data), [])
  else if username = [] then (.error ("username cannot be empty".data), [])
  else if password = [] then (.error ("password cannot be empty".data), [])
  else
    let req : PostReq :=
      ⟨tokenEndpointURL server realm,
       passwordGrantForm clientID clientSecret username password⟩
    match answer with
    | .error e => (.error ("failed to make token request: ".data ++ e), [req])
    | .ok (status, body) =>
      if status ≠ 200 then
        (.error ("failed to get token: ".data ++ body), [req])
      else
        match parseTop body with
        | none => (.error ("failed to parse token response".data), [req])
        | some j =>
          match tokenRespFromJson j with
          | none => (.error ("failed to parse token response".data), [req])
          | some tr => (.ok tr.accessToken, [req])

/-- The CLI's stored credential set (`config.AuthConfig`). -/
structure AuthConfig where
  serverURL : Str
  realm : Str
  clientID : Str
  clientSecret : Str
  username : Str
  password : Str
deriving DecidableEq

/-- The CLI's persisted configuration (`config.Config`); the on-disk file is
abstracted to the record the load/save round trips preserve. -/
structure Config where
  server : Str := []
  jwtToken : Str := []
  authConfig : Option AuthConfig := none
deriving DecidableEq

/-- Error message of `RefreshToken` when no credential set is cached. -/
def noAuthConfigMsg : Str :=
  ("no authentication configuration found. " ++
   "Please run 'digit config set' to authenticate").data

/-- Model of `auth.RefreshToken`: load the cached credential set, exchange
it at the token endpoint, store the new token in the configuration, and
return it.  The updated configuration models `config.SetJWTToken`. -/
def RefreshToken (cfg : Config) (answer : HttpAnswer) :
    Except Str (Str × Config) × List PostReq :=
  match cfg.authConfig with
  | none => (.error noAuthConfigMsg, [])
  | some ac =>
    match GetJWTToken ac.serverURL ac.realm ac.clientID ac.clientSecret
        ac.username ac.password answer with
    | (.error e, posts) =>
      (.error ("failed to authenticate with Keycloak: ".data ++ e), posts)
    | (.ok tok, posts) => (.ok (tok, { cfg with jwtToken := tok }), posts)

/-- Error message of `GetValidJWTToken` when no token is cached. -/
def noTokenMsg : Str :=
  ("no JWT token found. Please run 'digit config set' to authenticate").data

/-- Model of `auth.GetValidJWTToken`: return the cached token when present
and unexpired; fail when the cached token is missing or undecodable; refresh
when it is decodably expired. -/
def GetValidJWTToken (now : Int) (cfg : Config) (answer : HttpAnswer) :
    Except Str (Str × Config) × List PostReq :=
  let token := cfg.jwtToken
  if token = [] then (.error noTokenMsg, [])
  else
    match IsTokenExpired now token with
    | (_, .error e) => (.error ("failed to validate token: ".data ++ e), [])
    | (false, .ok _) => (.ok (token, cfg), [])
    | (true, .ok _) =>
      match RefreshToken cfg answer with
      | (.error e, posts) =>
        (.error ("failed to refresh token: ".data ++ e), posts)
      | (.ok (t, cfg'), posts) => (.ok (t, cfg'), posts)

/-- Model of `auth.GetAuthorizationHeader`: `"Bearer " + GetValidJWTToken()`. -/
def GetAuthorizationHeader (now : Int) (cfg : Config) (answer : HttpAnswer) :
    Except Str (Str × Config) × List PostReq :=
  match GetValidJWTToken now cfg answer with
  | (.error e, posts) => (.error e, posts)
  | (.ok (t, cfg'), posts) => (.ok ("Bearer ".data ++ t, cfg'), posts)

/-! ## Workflow library (digit CreateProcess / CreateState / CreateAction)
and the create-workflow orchestration (createWorkflow.go) -/

/-- A parsed workflow process definition (`WorkflowDefinition.Workflow.Process`). -/
structure ProcessDef where
  name : Str := []
  code : Str := []
  description : Str := []
  version : Str := []
  sla : Int := 0
deriving DecidableEq

/-- A parsed state definition. -/
structure StateDef where
  code : Str := []
  name : Str := []
  isInitial : Bool := false
  isParallel : Bool := false
  isJoin : Bool := false
  sla : Int := 0
deriving DecidableEq

/-- A parsed action definition (roles and assignee check come from
`attributeValidation`). -/
structure ActionDef where
  name : Str := []
  currentState : Str := []
  nextState : Str := []
  roles : List Str := []
  assigneeCheck : Bool := false
deriving DecidableEq

/-- A parsed workflow definition. -/
structure WorkflowDefinition where
  process : ProcessDef := {}
  states : List StateDef := []
  actions : List ActionDef := []
deriving DecidableEq

/-- One remote creation call issued by the workflow library, recorded with
the exact arguments the orchestrator passed. -/
inductive WfEvent where
  | procCall (serverURL jwtToken tenantID name code description version : Str)
      (sla : Int) : WfEvent
  | stateCall (serverURL jwtToken tenantID processID code name : Str)
      (isInitial isParallel isJoin : Bool) (sla : Int) : WfEvent
  | actionCall (serverURL jwtToken tenantID stateID name nextState : Str)
      (roles : List Str) (assigneeCheck : Bool) : WfEvent
deriving DecidableEq

/-- An HTTP request as the workflow library builds it. -/
structure HttpRequest where
  method : Str
  url : Str
  body : Str
deriving DecidableEq

/-- Go `%t`. -/
def boolLit (b : Bool) : Str := if b then "true".data else "false".data

/-- The roles JSON array built inside `digit.CreateAction`. -/
def rolesJSON (roles : List Str) : Str :=
  '[' :: (match roles.map (fun r => '"' :: r ++ ['"']) with
          | [] => []
          | q :: qs => qs.foldl (fun acc x => acc ++ ", ".data ++ x) q) ++ [']']

/-- The HTTP request each recorded call corresponds to, following the URL
and `fmt.Sprintf` body templates of the digit workflow library. -/
def requestOfEvent : WfEvent → HttpRequest
  | .procCall serverURL _ _ name code description version sla =>
    { method := "POST".data
      url := trimSuffixSlash serverURL ++ "/workflow/v1/process".data
      body :=
        "\x7b\n  \"name\": \"".data ++ name ++
        "\",\n  \"code\": \"".data ++ code ++
        "\",\n  \"description\": \"".data ++ description ++
        "\",\n  \"version\": \"".data ++ version ++
        "\",\n  \"sla\": ".data ++ intLit sla ++ "\n\x7d".data }
  | .stateCall serverURL _ _ processID code name isInitial isParallel isJoin sla =>
    { method := "POST".data
      url := trimSuffixSlash serverURL ++ "/workflow/v1/process/".data ++
        processID ++ "/state".data
      body :=
        "\x7b\n  \"code\": \"".data ++ code ++
        "\",\n  \"name\": \"".data ++ name ++
        "\",\n  \"isInitial\": ".data ++ boolLit isInitial ++
        ",\n  \"isParallel\": ".data ++ boolLit isParallel ++
        ",\n  \"isJoin\": ".data ++ boolLit isJoin ++
        ",\n  \"sla\": ".data ++ intLit sla ++ "\n\x7d".data }
  | .actionCall serverURL _ _ stateID name nextState roles assigneeCheck =>
    { method := "POST".data
      url := trimSuffixSlash serverURL ++ "/workflow/v1/state/".data ++
        stateID ++ "/action".data
      body :=
        "\x7b\n  \"name\": \"".data ++ name ++
        "\",\n  \"nextState\": \"".data ++ nextState ++
        "\",\n  \"attributeValidation\": \x7b\n    \"attributes\": \x7b\n      \"roles\": ".data ++
        rolesJSON roles ++
        "\n    \x7d,\n    \"assigneeCheck\": ".data ++ boolLit assigneeCheck ++
        "\n  \x7d\n\x7d".data }

/-- Running call-state of one orchestration: how many HTTP calls were made
and which creation calls were issued, in order. -/
structure CallState where
  calls : Nat := 0
  trace : List WfEvent := []
deriving DecidableEq

/-- Issue one library call: record the event, consult the environment's
answer for this call index, and apply the library's status check
(`200 <= status < 300`). -/
def libSend (env : Nat → HttpAnswer) (st : CallState) (ev : WfEvent) :
    Except Str Str × CallState :=
  let st' : CallState := ⟨st.calls + 1, st.trace ++ [ev]⟩
  match env st.calls with
  | .error e => (.error ("failed to send request: ".data ++ e), st')
  | .ok (status, body) =>
    if 200 ≤ status ∧ status < 300 then (.ok body, st')
    else
      (.error ("API request failed with status ".data ++ natLit status ++
        ": ".data ++ body), st')

/-- Model of `digit.CreateProcess`: parameter validation, then one POST. -/
def CreateProcess (env : Nat → HttpAnswer) (st : CallState)
    (serverURL jwtToken tenantID name code description version : Str)
    (sla : Int) : Except Str Str × CallState :=
  if serverURL = [] then (.error ("server URL is required".data), st)
  else if tenantID = [] then (.error ("tenant ID is required".data), st)
  else libSend env st
    (.procCall serverURL jwtToken tenantID name code description version sla)

/-- Model of `digit.CreateState`. -/
def CreateState (env : Nat → HttpAnswer) (st : CallState)
    (serverURL jwtToken tenantID processID code name : Str)
    (isInitial isParallel isJoin : Bool) (sla : Int) :
    Except Str Str × CallState :=
  if serverURL = [] then (.error ("server URL is required".data), st)
  else if tenantID = [] then (.error ("tenant ID is required".data), st)
  else if processID = [] then (.error ("process ID is required".data), st)
  else libSend env st
    (.stateCall serverURL jwtToken tenantID processID code name isInitial
      isParallel isJoin sla)

/-- Model of `digit.CreateAction`. -/
def CreateAction (env : Nat → HttpAnswer) (st : CallState)
    (serverURL jwtToken tenantID stateID name nextState : Str)
    (roles : List Str) (assigneeCheck : Bool) : Except Str Str × CallState :=
  if serverURL = [] then (.error ("server URL is required".data), st)
  else if tenantID = [] then (.error ("tenant ID is required".data), st)
  else if stateID = [] then (.error ("state ID is required".data), st)
  else libSend env st
    (.actionCall serverURL jwtToken tenantID stateID name nextState roles
      assigneeCheck)

/-- `json.Unmarshal` of a response body into `map[string]interface{}`:
`none` when unmarshalling fails (not an object or null), `some none` for
`null` (a nil map), `some (some kvs)` for an object. -/
def goUnmarshalMap (body : Str) : Option (Option (List (Str × Json))) :=
  match parseTop body with
  | some (.obj kvs) => some (some kvs)
  | some .null => some none
  | _ => none

/-- Go map indexing: later duplicate keys overwrite earlier ones. -/
def lookupLast (kvs : List (Str × Json)) (k : Str) : Option Json :=
  kvs.foldl (fun acc kv => if kv.1 = k then some kv.2 else acc) none

/-- `result["id"].(string)`: the `id` entry, provided it is a string. -/
def mapIdString (mo : Option (List (Str × Json))) : Option Str :=
  match mo.bind (fun kvs => lookupLast kvs ("id".data)) with
  | some (.str s) => some s
  | _ => none

/-- The orchestrator's code-to-identifier map (`map[string]string`):
prepending on insert and taking the first hit on lookup gives Go's
overwrite semantics. -/
def lookupFirst (m : List (Str × Str)) (k : Str) : Option Str :=
  match m with
  | [] => none
  | (a, b) :: rest => if a = k then some b else lookupFirst rest k

/-- The state-creation loop of `createWorkflowCmd.RunE` (step 2): create
each state in definition order, extending the code-to-identifier map. -/
def runStates (env : Nat → HttpAnswer) (st : CallState)
    (serverURL jwtToken tenantID processID : Str) (states : List StateDef)
    (m : List (Str × Str)) : Except Str (List (Str × Str)) × CallState :=
  match states with
  | [] => (.ok m, st)
  | s :: rest =>
    match CreateState env st serverURL jwtToken tenantID processID s.code
        s.name s.isInitial s.isParallel s.isJoin s.sla with
    | (.error e, st') =>
      (.error ("failed to create state ".data ++ s.code ++ ": ".data ++ e), st')
    | (.ok body, st') =>
      match goUnmarshalMap body with
      | none =>
        (.error ("failed to parse state response for ".data ++ s.code), st')
      | some mo =>
        match mapIdString mo with
        | none =>
          (.error ("failed to extract state ID from response for ".data ++
            s.code), st')
        | some stateID =>
          runStates env st' serverURL jwtToken tenantID processID rest
            ((s.code, stateID) :: m)

/-- The action-creation loop of `createWorkflowCmd.RunE` (step 3): resolve
both state references through the map before issuing the call. -/
def runActions (env : Nat → HttpAnswer) (st : CallState)
    (serverURL jwtToken tenantID : Str) (m : List (Str × Str))
    (actions : List ActionDef) : Except Str Unit × CallState :=
  match actions with
  | [] => (.ok (), st)
  | a :: rest =>
    match lookupFirst m a.currentState with
    | none =>
      (.error ("state ID not found for current state: ".data ++
        a.currentState), st)
    | some currentStateID =>
      match lookupFirst m a.nextState with
      | none =>
        (.error ("state ID not found for next state: ".data ++ a.nextState), st)
      | some nextStateID =>
        match CreateAction env st serverURL jwtToken tenantID currentStateID
            a.name nextStateID a.roles a.assigneeCheck with
        | (.error e, st') =>
          (.error ("failed to create action ".data ++ a.name ++ ": ".data ++ e),
           st')
        | (.ok _, st') =>
          runActions env st' serverURL jwtToken tenantID m rest

/-- The success report of `create-workflow`: process id and the printed
state/action counts. -/
structure WorkflowSummary where
  processId : Str
  statesCreated : Nat
  actionsCreated : Nat
deriving DecidableEq

/-- Model of the orchestration in `createWorkflowCmd.RunE` after YAML
parsing: create the process, extract its id, create every state in order
building the code-to-identifier map, then create every action in order with
resolved state identifiers; stop at the first failure. -/
def runCreateWorkflow (serverURL jwtToken tenantID : Str)
    (wd : WorkflowDefinition) (env : Nat → HttpAnswer) :
    Except Str WorkflowSummary × CallState :=
  match CreateProcess env {} serverURL jwtToken tenantID wd.process.name
      wd.process.code wd.process.description wd.process.version
      wd.process.sla with
  | (.error e, st) => (.error ("failed to create process: ".data ++ e), st)
  | (.ok body, st) =>
    match goUnmarshalMap body with
    | none => (.error ("failed to parse process response".data), st)
    | some mo =>
      match mapIdString mo with
      | none => (.error ("failed to extract process ID from response".data), st)
      | some processID =>
        match runStates env st serverURL jwtToken tenantID processID
            wd.states [] with
        | (.error e, st') => (.error e, st')
        | (.ok m, st') =>
          match runActions env st' serverURL jwtToken tenantID m wd.actions with
          | (.error e, st'') => (.error e, st'')
          | (.ok _, st'') =>
            (.ok ⟨processID, wd.states.length, wd.actions.length⟩, st'')

/-! ## Observable kinds of creation calls (for the ordering claim) -/

/-- The kind of a creation call: process creation, state creation (tagged
with the state's code) or action creation (tagged with the action's name). -/
inductive WfKind where
  | proc : WfKind
  | state (code : Str) : WfKind
  | action (name : Str) : WfKind
deriving DecidableEq

/-- Observable kind of a recorded call. -/
def kindOf : WfEvent → WfKind
  | .procCall _ _ _ _ _ _ _ _ => .proc
  | .stateCall _ _ _ _ code _ _ _ _ _ => .state code
  | .actionCall _ _ _ _ name _ _ _ => .action name

/-- The kinds of the state-creation calls of a definition, in order. -/
def stateKinds (states : List StateDef) : List WfKind :=
  states.map fun s => .state s.code

/-- The kinds of the action-creation calls of a definition, in order. -/
def actionKinds (actions : List ActionDef) : List WfKind :=
  actions.map fun a => .action a.name

/-- The canonical call order of one orchestration run: the process first,
then every state in definition order, then every action in definition
order. -/
def expectedKinds (wd : WorkflowDefinition) : List WfKind :=
  .proc :: (stateKinds wd.states ++ actionKinds wd.actions)

/-! ## Concrete fixtures instantiating the claims -/

/-- A three-segment token with header `h`, signature `s` and the serialized
claim set `c` (base64url, unpadded) as its middle segment. -/
def mkToken (c : JWTClaims) : Str :=
  "h".data ++ '.' ::
    (b64uEncode (utf8Encode (serializeClaims c)) ++ '.' :: "s".data)

/-- The zero claim set (every field empty, `exp = iat = 0`). -/
def claims0 : JWTClaims := {}

/-- A claim set whose token is fresh at time 100 (`exp` far in the future). -/
def claimsFresh : JWTClaims := { exp := 1000000 }

/-- A claim set whose issuer URL carries a realm path. -/
def claimsACME : JWTClaims := { iss := "https://host/x/realms/ACME".data }

/-- A claim set whose issuer has a scheme and host but no path segments. -/
def claimsHost : JWTClaims := { iss := "https://host".data }

/-- A claim set exercising the encode/decode round trip. -/
def claimsC9 : JWTClaims :=
  { sub := "u".data, iss := "i".data, exp := 5, iat := 6 }

/-- A cached credential set with all six fields present. -/
def acC4 : AuthConfig :=
  ⟨"https://auth".data, "realm1".data, "cid".data, "sec".data, "alice".data,
   "pw".data⟩

/-- A configuration whose cached token exists but is expired at time 100. -/
def cfgC4 : Config :=
  { server := "https://srv".data
    jwtToken := mkToken claims0
    authConfig := some acC4 }

/-- A configuration with credentials but no cached token. -/
def cfgNoTok : Config :=
  { server := "https://srv".data
    jwtToken := []
    authConfig := some acC4 }

/-- A configuration whose cached token is not decodable (one segment). -/
def cfgBadTok : Config :=
  { server := "https://srv".data
    jwtToken := "abc".data
    authConfig := some acC4 }

/-- A configuration whose cached token is fresh at time 100. -/
def cfgFresh : Config :=
  { server := "https://srv".data
    jwtToken := mkToken claimsFresh
    authConfig := some acC4 }

/-- A token-endpoint answer delivering access token `T2`. -/
def ansT2 : HttpAnswer := .ok (200, "\x7b\"access_token\":\"T2\"\x7d".data)

/-- The password-grant POST that `acC4`'s credentials produce. -/
def reqC4 : PostReq :=
  ⟨tokenEndpointURL acC4.serverURL acC4.realm,
   passwordGrantForm acC4.clientID acC4.clientSecret acC4.username
     acC4.password⟩

/-- Server URL fixture for the workflow scenarios. -/
def srv0 : Str := "https://srv".data

/-- Bearer token fixture for the workflow scenarios. -/
def tok0 : Str := "tok".data

/-- Tenant fixture for the workflow scenarios. -/
def tn0 : Str := "tn".data

/-- The workflow definition of the orchestration scenario: process `WF1`,
states `A` (initial) and `B`, one action `GO : A -> B`. -/
def wdC1 : WorkflowDefinition :=
  { process := { code := "WF1".data }
    states := [{ code := "A".data, isInitial := true }, { code := "B".data }]
    actions := [{ name := "GO".data, currentState := "A".data,
                  nextState := "B".data }] }

/-- Remote answers for the scenario: the process gets id `p1`, the two
states get ids `s1` and `s2`. -/
def envC1 : Nat → HttpAnswer := fun n =>
  if n = 0 then .ok (200, "\x7b\"id\":\"p1\"\x7d".data)
  else if n = 1 then .ok (200, "\x7b\"id\":\"s1\"\x7d".data)
  else if n = 2 then .ok (200, "\x7b\"id\":\"s2\"\x7d".data)
  else .ok (200, "\x7b\x7d".data)

/-- The action-creation call the scenario must issue: path identifier `s1`,
payload next state `s2`. -/
def evC1act : WfEvent :=
  .actionCall srv0 tok0 tn0 "s1".data "GO".data "s2".data [] false

/-- The full expected trace of the scenario. -/
def traceC1 : List WfEvent :=
  [.procCall srv0 tok0 tn0 [] "WF1".data [] [] 0,
   .stateCall srv0 tok0 tn0 "p1".data "A".data [] true false false 0,
   .stateCall srv0 tok0 tn0 "p1".data "B".data [] false false false 0,
   evC1act]

/-- An action whose current-state code `Z` names no state of `wdC3`. -/
def actC3 : ActionDef :=
  { name := "GO".data, currentState := "Z".data, nextState := "A".data }

/-- A definition with one state `A` and one action referencing missing `Z`. -/
def wdC3 : WorkflowDefinition :=
  { process := { code := "WF1".data }
    states := [{ code := "A".data, isInitial := true }]
    actions := [actC3] }

/-- Call state after the process creation of the `wdC3` run. -/
def st0C3 : CallState :=
  ⟨1, [.procCall srv0 tok0 tn0 [] "WF1".data [] [] 0]⟩

/-- Call state after the state creation of the `wdC3` run. -/
def st1C3 : CallState :=
  ⟨2, [.procCall srv0 tok0 tn0 [] "WF1".data [] [] 0,
       .stateCall srv0 tok0 tn0 "p1".data "A".data [] true false false 0]⟩

/-- An action whose next-state code `Z` names no state of `wdC3b`, while
its current state `A` resolves. -/
def actC3b : ActionDef :=
  { name := "GO".data, currentState := "A".data, nextState := "Z".data }

/-- A definition with one state `A` and one action whose next state is the
missing `Z`. -/
def wdC3b : WorkflowDefinition :=
  { process := { code := "WF1".data }
    states := [{ code := "A".data, isInitial := true }]
    actions := [actC3b] }

/-! ## Lemmas: splitting -/

theorem goSplit_ne_nil (sep : Char) (s : Str) : goSplit sep s ≠ [] := by
  cases s with
  | nil => simp [goSplit]
  | cons c rest =>
    simp only [goSplit]
    split
    · simp
    · split <;> simp

theorem goSplit_no_sep (sep : Char) (s : Str) (h : sep ∉ s) :
    goSplit sep s = [s] := by
  induction s with
  | nil => rfl
  | cons c rest ih =>
    have hc : ¬(c = sep) := fun hc => h (by simp [hc])
    have hr := ih (fun hm => h (by simp [hm]))
    simp [goSplit, hc, hr]

theorem goSplit_append (sep : Char) (a r : Str) (h : sep ∉ a) :
    goSplit sep (a ++ sep :: r) = a :: goSplit sep r := by
  induction a with
  | nil => simp [goSplit]
  | cons c rest ih =>
    have hc : ¬(c = sep) := fun hc => h (by simp [hc])
    have hr := ih (fun hm => h (by simp [hm]))
    simp only [List.cons_append, goSplit, if_neg hc, List.append_eq, hr]

theorem goSplit_three (h1 mid s3 : Str) (hh : '.' ∉ h1) (hm : '.' ∉ mid)
    (hs : '.' ∉ s3) :
    goSplit '.' (h1 ++ '.' :: (mid ++ '.' :: s3)) = [h1, mid, s3] := by
  rw [goSplit_append '.' h1 _ hh, goSplit_append '.' mid s3 hm,
    goSplit_no_sep '.' s3 hs]

/-! ## Lemmas: base64url round trip -/

theorem b64Char_facts :
    ∀ n < 64, b64Val (b64Char n) = some n ∧ ¬(b64Char n = '.') ∧
      ¬(b64Char n = '\n') ∧ ¬(b64Char n = '\r') ∧ ¬(b64Char n = '=') := by
  decide

theorem b64uEncode_mem (bs : List Nat) (hb : ∀ b ∈ bs, b < 256) :
    ∀ c ∈ b64uEncode bs, ∃ n, n < 64 ∧ c = b64Char n := by
  induction bs using b64uEncode.induct with
  | case1 => simp [b64uEncode]
  | case2 b1 =>
    have h1 : b1 < 256 := hb b1 (by simp)
    intro c hc
    simp only [b64uEncode, List.mem_cons, List.not_mem_nil, or_false] at hc
    rcases hc with hc | hc
    · exact ⟨b1 / 4, by omega, hc⟩
    · exact ⟨b1 % 4 * 16, by omega, hc⟩
  | case3 b1 b2 =>
    have h1 : b1 < 256 := hb b1 (by simp)
    have h2 : b2 < 256 := hb b2 (by simp)
    intro c hc
    simp only [b64uEncode, List.mem_cons, List.not_mem_nil, or_false] at hc
    rcases hc with hc | hc | hc
    · exact ⟨b1 / 4, by omega, hc⟩
    · exact ⟨b1 % 4 * 16 + b2 / 16, by omega, hc⟩
    · exact ⟨b2 % 16 * 4, by omega, hc⟩
  | case4 b1 b2 b3 rest ih =>
    have h1 : b1 < 256 := hb b1 (by simp)
    have h2 : b2 < 256 := hb b2 (by simp)
    have h3 : b3 < 256 := hb b3 (by simp)
    intro c hc
    simp only [b64uEncode, List.mem_cons] at hc
    rcases hc with hc | hc | hc | hc | hc
    · exact ⟨b1 / 4, by omega, hc⟩
    · exact ⟨b1 % 4 * 16 + b2 / 16, by omega, hc⟩
    · exact ⟨b2 % 16 * 4 + b3 / 64, by omega, hc⟩
    · exact ⟨b3 % 64, by omega, hc⟩
    · exact ih (fun b hbm => hb b (by simp [hbm])) c hc

theorem b64uEncode_no_dot (bs : List Nat) (hb : ∀ b ∈ bs, b < 256) :
    '.' ∉ b64uEncode bs := by
  intro hmem
  obtain ⟨n, hn, hc⟩ := b64uEncode_mem bs hb '.' hmem
  exact (b64Char_facts n hn).2.1 hc.symm

theorem padB64_cons4 (c1 c2 c3 c4 : Char) (s : Str) :
    padB64 (c1 :: c2 :: c3 :: c4 :: s) = c1 :: c2 :: c3 :: c4 :: padB64 s := by
  simp only [padB64, List.length_cons, List.cons_append, List.cons.injEq,
    true_and]
  congr 2
  omega

theorem b64DecodeBlocks_pad_encode (bs : List Nat) (hb : ∀ b ∈ bs, b < 256) :
    b64DecodeBlocks (padB64 (b64uEncode bs)) = some bs := by
  induction bs using b64uEncode.induct with
  | case1 => simp [b64uEncode, padB64, b64DecodeBlocks]
  | case2 b1 =>
    have h1 : b1 < 256 := hb b1 (by simp)
    have e1 := (b64Char_facts (b1 / 4) (by omega)).1
    have e2 := (b64Char_facts (b1 % 4 * 16) (by omega)).1
    have ne1 := (b64Char_facts (b1 % 4 * 16) (by omega)).2.2.2.2
    simp only [b64uEncode, padB64, List.length_cons, List.length_nil]
    norm_num [List.replicate, b64DecodeBlocks, e1, e2]
    omega
  | case3 b1 b2 =>
    have h1 : b1 < 256 := hb b1 (by simp)
    have h2 : b2 < 256 := hb b2 (by simp)
    have e1 := (b64Char_facts (b1 / 4) (by omega)).1
    have e2 := (b64Char_facts (b1 % 4 * 16 + b2 / 16) (by omega)).1
    have e3 := (b64Char_facts (b2 % 16 * 4) (by omega)).1
    have ne3 := (b64Char_facts (b2 % 16 * 4) (by omega)).2.2.2.2
    simp only [b64uEncode, padB64, List.length_cons, List.length_nil]
    norm_num [List.replicate, b64DecodeBlocks, e1, e2, e3, ne3]
    constructor <;> omega
  | case4 b1 b2 b3 rest ih =>
    have h1 : b1 < 256 := hb b1 (by simp)
    have h2 : b2 < 256 := hb b2 (by simp)
    have h3 : b3 < 256 := hb b3 (by simp)
    have e1 := (b64Char_facts (b1 / 4) (by omega)).1
    have e2 := (b64Char_facts (b1 % 4 * 16 + b2 / 16) (by omega)).1
    have e3 := (b64Char_facts (b2 % 16 * 4 + b3 / 64) (by omega)).1
    have e4 := (b64Char_facts (b3 % 64) (by omega)).1
    have ne3 := (b64Char_facts (b2 % 16 * 4 + b3 / 64) (by omega)).2.2.2.2
    have ne4 := (b64Char_facts (b3 % 64) (by omega)).2.2.2.2
    have hrec := ih (fun b hbm => hb b (by simp [hbm]))
    simp only [padB64] at hrec
    simp only [b64uEncode, padB64, List.append_eq, List.cons_append,
      List.length_cons, b64DecodeBlocks, e1, e2, e3, e4, if_neg ne3, if_neg ne4]
    have hlen : (4 - ((b64uEncode rest).length + 1 + 1 + 1 + 1) % 4) % 4
        = (4 - (b64uEncode rest).length % 4) % 4 := by omega
    rw [hlen, hrec]
    simp only [Option.some.injEq, List.cons.injEq]
    refine ⟨by omega, by omega, by omega, trivial⟩

theorem b64_roundtrip (bs : List Nat) (hb : ∀ b ∈ bs, b < 256) :
    b64uDecodeGo (padB64 (b64uEncode bs)) = some bs := by
  have hfilter : (padB64 (b64uEncode bs)).filter
      (fun c => ¬(c = '\n' ∨ c = '\r')) = padB64 (b64uEncode bs) := by
    apply List.filter_eq_self.mpr
    intro c hc
    rcases List.mem_append.mp hc with hc | hc
    · obtain ⟨n, hn, rfl⟩ := b64uEncode_mem bs hb c hc
      have hf := b64Char_facts n hn
      simp [hf.2.2.1, hf.2.2.2.1]
    · have : c = '=' := List.eq_of_mem_replicate hc
      subst this
      decide
  unfold b64uDecodeGo
  rw [hfilter]
  exact b64DecodeBlocks_pad_encode bs hb

/-! ## Lemmas: UTF-8 round trip -/

theorem char_toNat_valid (c : Char) :
    c.toNat < 0xD800 ∨ (0xE000 ≤ c.toNat ∧ c.toNat < 0x110000) := by
  have h := c.valid
  rcases h with h | ⟨h1, h2⟩
  · left
    exact h
  · right
    unfold Char.toNat
    omega

theorem utf8EncodeChar_lt256 (c : Char) : ∀ b ∈ utf8EncodeChar c, b < 256 := by
  have hv := char_toNat_valid c
  intro b hb
  unfold utf8EncodeChar at hb
  by_cases h1 : c.toNat < 0x80
  · simp [h1] at hb
    omega
  · by_cases h2 : c.toNat < 0x800
    · simp [h1, h2] at hb
      rcases hb with hb | hb <;> omega
    · by_cases h3 : c.toNat < 0x10000
      · simp [h1, h2, h3] at hb
        rcases hb with hb | hb | hb <;> omega
      · simp [h1, h2, h3] at hb
        rcases hb with hb | hb | hb | hb <;> omega

theorem utf8Encode_lt256 (s : Str) : ∀ b ∈ utf8Encode s, b < 256 := by
  intro b hb
  simp only [utf8Encode, List.mem_flatten, List.mem_map] at hb
  obtain ⟨l, ⟨c, _, rfl⟩, hbl⟩ := hb
  exact utf8EncodeChar_lt256 c b hbl

theorem utf8_step (c : Char) (bs : List Nat) (fuel : Nat) :
    utf8DecodeLossyF (fuel + 1) (utf8EncodeChar c ++ bs) =
      c :: utf8DecodeLossyF fuel bs := by
  have hv := char_toNat_valid c
  have hofnat : Char.ofNat c.toNat = c := Char.ofNat_toNat c
  by_cases h1 : c.toNat < 0x80
  · have e : utf8EncodeChar c = [c.toNat] := by simp [utf8EncodeChar, h1]
    rw [e]
    simp only [List.cons_append, List.nil_append, utf8DecodeLossyF, if_pos h1,
      hofnat]
    simp
  · by_cases h2 : c.toNat < 0x800
    · have e : utf8EncodeChar c =
          [0xC0 + c.toNat / 0x40, 0x80 + c.toNat % 0x40] := by
        simp [utf8EncodeChar, h1, h2]
      rw [e]
      have hb1 : ¬(0xC0 + c.toNat / 0x40 < 0x80) := by omega
      have hb2 : ¬(0xC0 + c.toNat / 0x40 < 0xC2) := by omega
      have hb3 : 0xC0 + c.toNat / 0x40 ≤ 0xDF := by omega
      have hcont : isCont (0x80 + c.toNat % 0x40) = true := by
        simp only [isCont, decide_eq_true_eq]
        omega
      have hval : (0xC0 + c.toNat / 0x40 - 0xC0) * 0x40 +
          (0x80 + c.toNat % 0x40 - 0x80) = c.toNat := by omega
      have hval2 : c.toNat / 64 * 64 + c.toNat % 64 = c.toNat := by omega
      simp only [List.cons_append, List.nil_append, utf8DecodeLossyF,
        if_neg hb1, if_neg hb2, if_pos hb3]
      simp [List.append_eq, hcont, hval, hval2, hofnat]
    · by_cases h3 : c.toNat < 0x10000
      · have e : utf8EncodeChar c =
            [0xE0 + c.toNat / 0x1000, 0x80 + c.toNat / 0x40 % 0x40,
             0x80 + c.toNat % 0x40] := by
          simp [utf8EncodeChar, h1, h2, h3]
        rw [e]
        have hb1 : ¬(0xE0 + c.toNat / 0x1000 < 0x80) := by omega
        have hb2 : ¬(0xE0 + c.toNat / 0x1000 < 0xC2) := by omega
        have hb3 : ¬(0xE0 + c.toNat / 0x1000 ≤ 0xDF) := by omega
        have hb4 : 0xE0 + c.toNat / 0x1000 ≤ 0xEF := by omega
        have haccept : accept3 (0xE0 + c.toNat / 0x1000)
            (0x80 + c.toNat / 0x40 % 0x40) = true := by
          unfold accept3
          split_ifs with hE hD
          · simp only [decide_eq_true_eq]
            omega
          · simp only [decide_eq_true_eq]
            omega
          · simp only [isCont, decide_eq_true_eq]
            omega
        have hcont : isCont (0x80 + c.toNat % 0x40) = true := by
          simp only [isCont, decide_eq_true_eq]
          omega
        have hval : (0xE0 + c.toNat / 0x1000 - 0xE0) * 0x1000 +
            (0x80 + c.toNat / 0x40 % 0x40 - 0x80) * 0x40 +
            (0x80 + c.toNat % 0x40 - 0x80) = c.toNat := by omega
        have hval2 : c.toNat / 4096 * 4096 + c.toNat / 64 % 64 * 64 +
            c.toNat % 64 = c.toNat := by omega
        simp only [List.cons_append, List.nil_append, utf8DecodeLossyF,
          if_neg hb1, if_neg hb2, if_neg hb3, if_pos hb4]
        simp [List.append_eq, haccept, hcont, hval, hval2, hofnat]
      · have h4 : c.toNat < 0x110000 := by omega
        have e : utf8EncodeChar c =
            [0xF0 + c.toNat / 0x40000, 0x80 + c.toNat / 0x1000 % 0x40,
             0x80 + c.toNat / 0x40 % 0x40, 0x80 + c.toNat % 0x40] := by
          simp [utf8EncodeChar, h1, h2, h3]
        rw [e]
        have hb1 : ¬(0xF0 + c.toNat / 0x40000 < 0x80) := by omega
        have hb2 : ¬(0xF0 + c.toNat / 0x40000 < 0xC2) := by omega
        have hb3 : ¬(0xF0 + c.toNat / 0x40000 ≤ 0xDF) := by omega
        have hb4 : ¬(0xF0 + c.toNat / 0x40000 ≤ 0xEF) := by omega
        have hb5 : 0xF0 + c.toNat / 0x40000 ≤ 0xF4 := by omega
        have haccept : accept4 (0xF0 + c.toNat / 0x40000)
            (0x80 + c.toNat / 0x1000 % 0x40) = true := by
          unfold accept4
          split_ifs with hE hD
          · simp only [decide_eq_true_eq]
            omega
          · simp only [decide_eq_true_eq]
            omega
          · simp only [isCont, decide_eq_true_eq]
            omega
        have hcont2 : isCont (0x80 + c.toNat / 0x40 % 0x40) = true := by
          simp only [isCont, decide_eq_true_eq]
          omega
        have hcont3 : isCont (0x80 + c.toNat % 0x40) = true := by
          simp only [isCont, decide_eq_true_eq]
          omega
        have hval : (0xF0 + c.toNat / 0x40000 - 0xF0) * 0x40000 +
            (0x80 + c.toNat / 0x1000 % 0x40 - 0x80) * 0x1000 +
            (0x80 + c.toNat / 0x40 % 0x40 - 0x80) * 0x40 +
            (0x80 + c.toNat % 0x40 - 0x80) = c.toNat := by omega
        have hval2 : c.toNat / 262144 * 262144 + c.toNat / 4096 % 64 * 4096 +
            c.toNat / 64 % 64 * 64 + c.toNat % 64 = c.toNat := by omega
        simp only [List.cons_append, List.nil_append, utf8DecodeLossyF,
          if_neg hb1, if_neg hb2, if_neg hb3, if_neg hb4, if_pos hb5]
        simp [List.append_eq, haccept, hcont2, hcont3, hval, hval2, hofnat]

theorem utf8_roundtrip_fuel (s : Str) :
    ∀ fuel, s.length ≤ fuel → utf8DecodeLossyF fuel (utf8Encode s) = s := by
  induction s with
  | nil =>
    intro fuel _
    cases fuel <;> simp [utf8Encode, utf8DecodeLossyF]
  | cons c rest ih =>
    intro fuel hf
    match fuel, hf with
    | f + 1, hf =>
      have : utf8Encode (c :: rest) = utf8EncodeChar c ++ utf8Encode rest := by
        simp [utf8Encode]
      rw [this, utf8_step, ih f (by simpa using hf)]

theorem utf8_roundtrip (s : Str) : utf8DecodeLossy (utf8Encode s) = s := by
  apply utf8_roundtrip_fuel
  have : ∀ t : Str, t.length ≤ (utf8Encode t).length := by
    intro t
    induction t with
    | nil => simp [utf8Encode]
    | cons c rest ih =>
      have hne : 1 ≤ (utf8EncodeChar c).length := by
        unfold utf8EncodeChar
        dsimp only
        split_ifs <;> simp
      simp only [utf8Encode, List.map_cons, List.flatten_cons,
        List.length_append, List.length_cons]
      simp only [utf8Encode] at ih
      omega
  exact this _

/-! ## Lemmas: decimal literals -/

theorem digitChar_facts :
    ∀ k < 10, digitVal (digitChar k) = some k ∧ isDigit (digitChar k) = true ∧
      (digitChar k = '0' → k = 0) ∧ ¬(digitChar k = '-') := by
  decide

theorem digitsVal_append_digit (xs : Str) (c : Char) (dc : Nat)
    (hc : digitVal c = some dc) :
    ∀ v, digitsVal xs = some v → digitsVal (xs ++ [c]) = some (v * 10 + dc) := by
  induction xs with
  | nil =>
    intro v hv
    simp only [digitsVal, Option.some.injEq] at hv
    simp only [List.nil_append, digitsVal, hc, List.length_nil, pow_zero,
      Option.some.injEq]
    omega
  | cons x xs ih =>
    intro v hv
    simp only [digitsVal] at hv
    cases hdx : digitVal x with
    | none => rw [hdx] at hv; exact absurd hv (by simp)
    | some dx =>
      rw [hdx] at hv
      cases hvx : digitsVal xs with
      | none => rw [hvx] at hv; exact absurd hv (by simp)
      | some vx =>
        rw [hvx] at hv
        simp only [Option.some.injEq] at hv
        have hrec := ih vx hvx
        have hlen : (xs ++ [c]).length = xs.length + 1 := by simp
        simp only [List.cons_append, digitsVal, List.append_eq, hrec, hdx,
          hlen, Option.some.injEq]
        rw [← hv, pow_succ]
        ring

theorem natLitAux_spec : ∀ fuel n, n < fuel →
    digitsVal (natLitAux fuel n) = some n ∧
    (∀ c ∈ natLitAux fuel n, isDigit c = true) ∧
    (∃ d tl, natLitAux fuel n = d :: tl ∧ (d = '0' → n = 0 ∧ tl = []) ∧
      ¬(d = '-')) := by
  intro fuel
  induction fuel with
  | zero => intro n hn; omega
  | succ fuel ih =>
    intro n hn
    by_cases h10 : n < 10
    · have hd := digitChar_facts n h10
      refine ⟨?_, ?_, digitChar n, [], ?_, ?_, hd.2.2.2⟩
      · simp [natLitAux, h10, digitsVal, hd.1]
      · simp [natLitAux, h10, hd.2.1]
      · simp [natLitAux, h10]
      · exact fun h0 => ⟨hd.2.2.1 h0, rfl⟩
    · have hrec := ih (n / 10) (by omega)
      have hdig := digitChar_facts (n % 10) (by omega)
      have heq : natLitAux (fuel + 1) n =
          natLitAux fuel (n / 10) ++ [digitChar (n % 10)] := by
        simp [natLitAux, h10]
      refine ⟨?_, ?_, ?_⟩
      · rw [heq]
        have := digitsVal_append_digit (natLitAux fuel (n / 10))
          (digitChar (n % 10)) (n % 10) hdig.1 (n / 10) hrec.1
        rw [this]
        congr 1
        omega
      · rw [heq]
        intro c hcmem
        rcases List.mem_append.mp hcmem with hcm | hcm
        · exact hrec.2.1 c hcm
        · simp only [List.mem_cons, List.not_mem_nil, or_false] at hcm
          rw [hcm]
          exact hdig.2.1
      · obtain ⟨d, tl, hshape, hzero, hminus⟩ := hrec.2.2
        refine ⟨d, tl ++ [digitChar (n % 10)], ?_, ?_, hminus⟩
        · rw [heq, hshape]
          simp
        · intro h0
          exact absurd ((hzero h0).1) (by omega)

theorem natLit_spec (n : Nat) :
    digitsVal (natLit n) = some n ∧
    (∀ c ∈ natLit n, isDigit c = true) ∧
    (∃ d tl, natLit n = d :: tl ∧ (d = '0' → n = 0 ∧ tl = []) ∧ ¬(d = '-')) :=
  natLitAux_spec (n + 1) n (by omega)

theorem goParseInt64_intLit (i : Int) (hlo : -(2 ^ 63) ≤ i)
    (hhi : i ≤ 2 ^ 63 - 1) : goParseInt64 (intLit i) = some i := by
  obtain ⟨hval, hdigs, d, tl, hshape, hzero, hminus⟩ := natLit_spec i.natAbs
  by_cases hneg : i < 0
  · simp only [intLit, if_pos hneg, goParseInt64, if_pos rfl]
    cases hcase : natLit i.natAbs with
    | nil => rw [hcase] at hshape; exact absurd hshape (by simp)
    | cons x xs =>
      rw [hcase] at hval
      simp only [hval]
      have hpow : (2 : Int) ^ 63 = 9223372036854775808 := by norm_num
      have hbound : i.natAbs ≤ 2 ^ 63 := by
        simp only [show (2 : Nat) ^ 63 = 9223372036854775808 by norm_num]
        omega
      rw [if_pos hbound]
      exact congrArg some (by omega)
  · simp only [intLit, if_neg hneg]
    rw [hshape]
    simp only [goParseInt64, if_neg hminus, ← hshape, hval]
    have hpow : (2 : Int) ^ 63 = 9223372036854775808 := by norm_num
    have hbound : i.natAbs ≤ 2 ^ 63 - 1 := by
      simp only [show (2 : Nat) ^ 63 = 9223372036854775808 by norm_num]
      omega
    rw [if_pos hbound]
    exact congrArg some (by omega)

/-! ## Lemmas: JSON string literals round trip -/

theorem hexDigitLower_facts : ∀ d < 16, hexVal (hexDigitLower d) = some d := by
  decide

theorem parseJStrF_plain (s : Str)
    (hs : ∀ c ∈ s, ¬(c = '"') ∧ ¬(c = '\\') ∧ 0x20 ≤ c.toNat) (rest : Str) :
    ∀ fuel, s.length < fuel →
      parseJStrF fuel (s ++ '"' :: rest) = some (s, rest) := by
  induction s with
  | nil =>
    intro fuel hf
    match fuel, hf with
    | f + 1, _ => simp [parseJStrF]
  | cons c s' ih =>
    intro fuel hf
    match fuel, hf with
    | f + 1, hf =>
      have hc := hs c (by simp)
      have hlt : ¬(c.toNat < 0x20) := by omega
      have hih := ih (fun d hd => hs d (by simp [hd])) f (by simpa using hf)
      simp only [List.cons_append, parseJStrF, if_neg hc.1, if_neg hc.2.1,
        if_neg hlt, List.append_eq, hih]
      rfl

theorem parseJStrF_esc (s : Str) (rest : Str) :
    ∀ fuel, (escString s).length < fuel →
      parseJStrF fuel (escString s ++ '"' :: rest) = some (s, rest) := by
  induction s with
  | nil =>
    intro fuel hf
    match fuel, hf with
    | f + 1, _ => simp [escString, parseJStrF]
  | cons c s' ih =>
    intro fuel hf
    have hesc : escString (c :: s') = jsonEscapeChar c ++ escString s' := by
      simp [escString]
    rw [hesc] at hf ⊢
    have hofnat : Char.ofNat c.toNat = c := Char.ofNat_toNat c
    by_cases h1 : c = '"'
    · subst h1
      match fuel, hf with
      | f + 1, hf =>
        have e : jsonEscapeChar '"' = ['\\', '"'] := by decide
        rw [e] at hf ⊢
        have hih := ih f (by simp at hf ⊢; omega)
        simp only [List.cons_append, List.append_eq, List.nil_append]
        simp [parseJStrF, simpleEscape, hih]
    · by_cases h2 : c = '\\'
      · subst h2
        match fuel, hf with
        | f + 1, hf =>
          have e : jsonEscapeChar '\\' = ['\\', '\\'] := by decide
          rw [e] at hf ⊢
          have hih := ih f (by simp at hf ⊢; omega)
          simp only [List.cons_append, List.append_eq, List.nil_append]
          simp [parseJStrF, simpleEscape, hih]
      · by_cases h3 : c = '\n'
        · subst h3
          match fuel, hf with
          | f + 1, hf =>
            have e : jsonEscapeChar '\n' = ['\\', 'n'] := by decide
            rw [e] at hf ⊢
            have hih := ih f (by simp at hf ⊢; omega)
            simp only [List.cons_append, List.append_eq, List.nil_append]
            simp [parseJStrF, simpleEscape, hih]
        · by_cases h4 : c = '\x0d'
          · subst h4
            match fuel, hf with
            | f + 1, hf =>
              have e : jsonEscapeChar '\x0d' = ['\\', 'r'] := by decide
              rw [e] at hf ⊢
              have hih := ih f (by simp at hf ⊢; omega)
              simp only [List.cons_append, List.append_eq, List.nil_append]
              simp [parseJStrF, simpleEscape, hih]
          · by_cases h5 : c = '\t'
            · subst h5
              match fuel, hf with
              | f + 1, hf =>
                have e : jsonEscapeChar '\t' = ['\\', 't'] := by decide
                rw [e] at hf ⊢
                have hih := ih f (by simp at hf ⊢; omega)
                simp only [List.cons_append, List.append_eq, List.nil_append]
                simp [parseJStrF, simpleEscape, hih]
            · by_cases h6 : c.toNat < 0x20 ∨ c = '<' ∨ c = '>' ∨ c = '&'
              · have e : jsonEscapeChar c =
                    ['\\', 'u', '0', '0', hexDigitLower (c.toNat / 16),
                     hexDigitLower (c.toNat % 16)] := by
                  unfold jsonEscapeChar
                  rw [if_neg h1, if_neg h2, if_neg h3, if_neg h4, if_neg h5,
                    if_pos h6]
                match fuel, hf with
                | f + 1, hf =>
                  rw [e] at hf ⊢
                  have hbound : c.toNat < 0x100 := by
                    rcases h6 with h | h | h | h
                    · omega
                    · rw [h]; decide
                    · rw [h]; decide
                    · rw [h]; decide
                  have hh := hexDigitLower_facts (c.toNat / 16) (by omega)
                  have hl := hexDigitLower_facts (c.toNat % 16) (by omega)
                  have hn : 0 * 4096 + 0 * 256 + c.toNat / 16 * 16 +
                      c.toNat % 16 = c.toNat := by omega
                  have hn2 : c.toNat / 16 * 16 + c.toNat % 16 = c.toNat := by
                    omega
                  have hlow : c.toNat < 0xD800 ∨ 0xE000 ≤ c.toNat := by omega
                  have hih := ih f (by simp at hf ⊢; omega)
                  simp only [List.cons_append, List.append_eq, List.nil_append]
                  simp [parseJStrF, hex4, hh, hl,
                    show hexVal '0' = some 0 by decide, hn, hn2, hlow, hih,
                    hofnat]
              · by_cases h7 : c.toNat = 0x2028
                · have e : jsonEscapeChar c =
                      ['\\', 'u', '2', '0', '2', '8'] := by
                    unfold jsonEscapeChar
                    rw [if_neg h1, if_neg h2, if_neg h3, if_neg h4, if_neg h5,
                      if_neg h6, if_pos h7]
                  match fuel, hf with
                  | f + 1, hf =>
                    rw [e] at hf ⊢
                    have hchar : Char.ofNat 8232 = c := by
                      rw [← h7]
                      exact hofnat
                    have hih := ih f (by simp at hf ⊢; omega)
                    simp only [List.cons_append, List.append_eq,
                      List.nil_append]
                    simp [parseJStrF, hex4,
                      show hexVal '2' = some 2 by decide,
                      show hexVal '0' = some 0 by decide,
                      show hexVal '8' = some 8 by decide, hih]
                    exact hchar
                · by_cases h8 : c.toNat = 0x2029
                  · have e : jsonEscapeChar c =
                        ['\\', 'u', '2', '0', '2', '9'] := by
                      unfold jsonEscapeChar
                      rw [if_neg h1, if_neg h2, if_neg h3, if_neg h4, if_neg h5,
                        if_neg h6, if_neg (by omega), if_pos h8]
                    match fuel, hf with
                    | f + 1, hf =>
                      rw [e] at hf ⊢
                      have hchar : Char.ofNat 8233 = c := by
                        rw [← h8]
                        exact hofnat
                      have hih := ih f (by simp at hf ⊢; omega)
                      simp only [List.cons_append, List.append_eq,
                        List.nil_append]
                      simp [parseJStrF, hex4,
                        show hexVal '2' = some 2 by decide,
                        show hexVal '0' = some 0 by decide,
                        show hexVal '9' = some 9 by decide, hih]
                      exact hchar
                  · have e : jsonEscapeChar c = [c] := by
                      unfold jsonEscapeChar
                      rw [if_neg h1, if_neg h2, if_neg h3, if_neg h4, if_neg h5,
                        if_neg h6, if_neg (by omega), if_neg (by omega)]
                    match fuel, hf with
                    | f + 1, hf =>
                      rw [e] at hf ⊢
                      have hlt : ¬(c.toNat < 0x20) := by omega
                      have hih := ih f (by simp at hf ⊢; omega)
                      simp only [List.cons_append, List.append_eq,
                        List.nil_append, parseJStrF, if_neg h1, if_neg h2,
                        if_neg hlt, hih]
                      rfl

/-! ## Lemmas: number literals through the JSON number grammar -/

theorem takeWhile_digits_append (xs rest : Str)
    (hxs : ∀ c ∈ xs, isDigit c = true)
    (hr : ∀ hd, rest.head? = some hd → isDigit hd = false) :
    (xs ++ rest).takeWhile isDigit = xs ∧
      (xs ++ rest).dropWhile isDigit = rest := by
  induction xs with
  | nil =>
    simp only [List.nil_append]
    cases rest with
    | nil => simp
    | cons hd tl =>
      have h := hr hd rfl
      simp [List.takeWhile_cons, List.dropWhile_cons, h]
  | cons x xs ih =>
    have hx : isDigit x = true := hxs x (by simp)
    have hih := ih (fun c hc => hxs c (by simp [hc]))
    simp [List.takeWhile_cons, List.dropWhile_cons, hx, hih.1, hih.2]

theorem parseIntPart_natLit (n : Nat) (rest : Str)
    (hr : ∀ hd, rest.head? = some hd → isDigit hd = false) :
    parseIntPart (natLit n ++ rest) = some (natLit n, rest) := by
  obtain ⟨hval, hdigs, d, tl, hshape, hzero, hminus⟩ := natLit_spec n
  rw [hshape]
  by_cases hd0 : d = '0'
  · obtain ⟨hn0, htl⟩ := hzero hd0
    subst htl
    subst hd0
    simp only [List.cons_append, List.nil_append, parseIntPart, if_pos rfl]
    simp
  · have hddig : isDigit d = true := hdigs d (by rw [hshape]; simp)
    have htl : ∀ c ∈ tl, isDigit c = true := fun c hc =>
      hdigs c (by rw [hshape]; simp [hc])
    have htw := takeWhile_digits_append tl rest htl hr
    simp only [List.cons_append, parseIntPart, if_neg hd0, if_pos hddig,
      htw.1, htw.2]

theorem parseNum_intLit (i : Int) (rest : Str)
    (hr : ∀ hd, rest.head? = some hd → isDigit hd = false ∧ ¬(hd = '.') ∧
      ¬(hd = 'e') ∧ ¬(hd = 'E')) :
    parseNum (intLit i ++ rest) = some (intLit i, rest) := by
  have hfrac : parseFracPart rest = ([], rest) := by
    cases rest with
    | nil => rfl
    | cons hd tl => simp [parseFracPart, (hr hd rfl).2.1]
  have hexp : parseExpPart rest = ([], rest) := by
    cases rest with
    | nil => rfl
    | cons hd tl =>
      have h := hr hd rfl
      simp [parseExpPart, h.2.2.1, h.2.2.2]
  by_cases hneg : i < 0
  · have hip := parseIntPart_natLit i.natAbs rest (fun hd h => (hr hd h).1)
    simp only [intLit, if_pos hneg, List.cons_append, parseNum, if_pos rfl]
    simp [hip, hfrac, hexp]
  · have hip := parseIntPart_natLit i.natAbs rest (fun hd h => (hr hd h).1)
    obtain ⟨hval, hdigs, d, tl, hshape, hzero, hminus⟩ := natLit_spec i.natAbs
    have hilit : intLit i = natLit i.natAbs := by simp [intLit, hneg]
    rw [hilit, hshape]
    rw [hshape] at hip
    simp only [List.cons_append] at hip
    simp only [List.cons_append, parseNum, if_neg hminus]
    simp [hip, hfrac, hexp]

/-! ## Lemmas: parsing a serialised claim set -/

theorem parseJStr_esc (v rest : Str) :
    parseJStr (escString v ++ '"' :: rest) = some (v, rest) := by
  unfold parseJStr
  apply parseJStrF_esc
  simp [List.length_append]

theorem parseJStr_plain (k rest : Str)
    (hk : ∀ ch ∈ k, ¬(ch = '"') ∧ ¬(ch = '\\') ∧ 0x20 ≤ ch.toNat) :
    parseJStr (k ++ '"' :: rest) = some (k, rest) := by
  unfold parseJStr
  apply parseJStrF_plain k hk
  simp [List.length_append]

theorem isJsonWs_false_of_digit (c : Char) (h : isDigit c = true) :
    isJsonWs c = false := by
  simp only [isJsonWs, decide_eq_false_iff_not]
  rintro (rfl | rfl | rfl | rfl) <;> exact absurd h (by decide)

theorem numHead_ne (d : Char) (h : d = '-' ∨ isDigit d = true) :
    ¬(d = 'n') ∧ ¬(d = 't') ∧ ¬(d = 'f') ∧ ¬(d = '"') ∧ ¬(d = '[') ∧
      ¬(d = '{') ∧ isJsonWs d = false := by
  rcases h with rfl | h
  · decide
  · refine ⟨?_, ?_, ?_, ?_, ?_, ?_, isJsonWs_false_of_digit d h⟩ <;>
      (intro heq; rw [heq] at h; exact absurd h (by decide))

theorem intLit_head (i : Int) :
    ∃ d ds, intLit i = d :: ds ∧ (d = '-' ∨ isDigit d = true) := by
  obtain ⟨hval, hdigs, d, tl, hshape, hzero, hminus⟩ := natLit_spec i.natAbs
  by_cases hneg : i < 0
  · exact ⟨'-', natLit i.natAbs, by simp [intLit, hneg], Or.inl rfl⟩
  · refine ⟨d, tl, by simp [intLit, hneg, hshape], Or.inr ?_⟩
    exact hdigs d (by rw [hshape]; simp)

theorem parseValue_intLit (f : Nat) (i : Int) (rest : Str)
    (hr : ∀ hd, rest.head? = some hd → isDigit hd = false ∧ ¬(hd = '.') ∧
      ¬(hd = 'e') ∧ ¬(hd = 'E')) :
    parseValue (f + 1) (intLit i ++ rest) = some (.num (intLit i), rest) := by
  obtain ⟨d, ds, hshape, hd⟩ := intLit_head i
  have hne := numHead_ne d hd
  have hpn := parseNum_intLit i rest hr
  rw [hshape] at hpn ⊢
  simp only [List.cons_append] at hpn
  simp only [List.cons_append, parseValue, if_neg hne.1, if_neg hne.2.1,
    if_neg hne.2.2.1, if_neg hne.2.2.2.1, if_neg hne.2.2.2.2.1,
    if_neg hne.2.2.2.2.2.1, hpn]

theorem parseValue_strVal (f : Nat) (v rest : Str) :
    parseValue (f + 1) ('"' :: (escString v ++ '"' :: rest)) =
      some (.str v, rest) := by
  simp [parseValue, parseJStr_esc]

theorem skipWs_intLit (i : Int) (rest : Str) :
    skipWs (intLit i ++ rest) = intLit i ++ rest := by
  obtain ⟨d, ds, hshape, hd⟩ := intLit_head i
  have hne := numHead_ne d hd
  rw [hshape]
  simp [skipWs, hne.2.2.2.2.2.2]

theorem skipWs_colon (r : Str) : skipWs (':' :: r) = ':' :: r := by
  simp [skipWs, isJsonWs]

theorem skipWs_quote (r : Str) : skipWs ('"' :: r) = '"' :: r := by
  simp [skipWs, isJsonWs]

theorem skipWs_comma (r : Str) : skipWs (',' :: r) = ',' :: r := by
  simp [skipWs, isJsonWs]

theorem skipWs_rbrace (r : Str) : skipWs ('}' :: r) = '}' :: r := by
  simp [skipWs, isJsonWs]

/-- A description of one JSON object member value as serialised by
`json.Marshal` for the structs in this development: a string field or an
integer field. -/
inductive MVal where
  | strV : Str → MVal
  | numV : Int → MVal

/-- The JSON value a member value denotes. -/
def MVal.toJson : MVal → Json
  | .strV s => .str s
  | .numV i => .num (intLit i)

/-- The serialised text of a member value. -/
def renderVal : MVal → Str
  | .strV s => '"' :: (escString s ++ ['"'])
  | .numV i => intLit i

/-- The serialised text of one `"key":value` member. -/
def renderMember (k : Str) (v : MVal) : Str :=
  '"' :: (k ++ '"' :: ':' :: renderVal v)

/-- The serialised text of a member list, closed by `}` and followed by
`rest` (the part of a Marshal output after the opening `\x7b`). -/
def renderMembers : List (Str × MVal) → Str → Str
  | [], rest => '}' :: rest
  | [(k, v)], rest => renderMember k v ++ '}' :: rest
  | (k, v) :: more, rest => renderMember k v ++ ',' :: renderMembers more rest

/-- Keys that the string scanner passes through verbatim. -/
def plainKey (k : Str) : Prop :=
  ∀ ch ∈ k, ¬(ch = '"') ∧ ¬(ch = '\\') ∧ 0x20 ≤ ch.toNat

theorem renderMembers_head (ms : List (Str × MVal)) (rest : Str)
    (h : ms ≠ []) : ∃ t, renderMembers ms rest = '"' :: t := by
  match ms with
  | [(k, v)] =>
    exact ⟨(k ++ '"' :: ':' :: renderVal v) ++ '}' :: rest,
      by simp [renderMembers, renderMember]⟩
  | (k, v) :: m2 :: more =>
    exact ⟨(k ++ '"' :: ':' :: renderVal v) ++ ',' ::
      renderMembers (m2 :: more) rest, by simp [renderMembers, renderMember]⟩

theorem parseMembers_render (ms : List (Str × MVal)) :
    ∀ rest f, ms ≠ [] → ms.length < f → (∀ kv ∈ ms, plainKey kv.1) →
      parseMembers f (renderMembers ms rest) =
        some (ms.map (fun kv => (kv.1, kv.2.toJson)), rest) := by
  induction ms with
  | nil => intro rest f h; exact absurd rfl h
  | cons kv ms ih =>
    intro rest f _ hf hplain
    obtain ⟨k, v⟩ := kv
    match f, hf with
    | g + 1, hf =>
      have hkey : plainKey k := hplain (k, v) (by simp)
      cases ms with
      | nil =>
        cases v with
        | strV s =>
          have hstream : renderMembers [(k, MVal.strV s)] rest =
              '"' :: (k ++ '"' :: ':' :: '"' ::
                (escString s ++ '"' :: '}' :: rest)) := by
            simp [renderMembers, renderMember, renderVal]
          rw [hstream]
          match g, hf with
          | g2 + 1, _ =>
            have hkp := parseJStr_plain k (':' :: '"' ::
              (escString s ++ '"' :: '}' :: rest)) hkey
            have hval := parseValue_strVal g2 s ('}' :: rest)
            simp [parseMembers, hkp, skipWs_colon, skipWs_quote, hval,
              skipWs_rbrace, MVal.toJson]
        | numV i =>
          have hstream : renderMembers [(k, MVal.numV i)] rest =
              '"' :: (k ++ '"' :: ':' :: (intLit i ++ '}' :: rest)) := by
            simp [renderMembers, renderMember, renderVal]
          rw [hstream]
          match g, hf with
          | g2 + 1, _ =>
            have hkp := parseJStr_plain k
              (':' :: (intLit i ++ '}' :: rest)) hkey
            have hval := parseValue_intLit g2 i ('}' :: rest)
              (fun hd h => by simp at h; rw [← h]; decide)
            simp [parseMembers, hkp, skipWs_colon, skipWs_intLit, hval,
              skipWs_rbrace, MVal.toJson]
      | cons kv2 ms2 =>
        have hms : kv2 :: ms2 ≠ [] := by simp
        obtain ⟨t, hteq⟩ := renderMembers_head (kv2 :: ms2) rest hms
        have hrec := ih rest g hms (by simp at hf ⊢; omega)
          (fun kv hkv => hplain kv (by simp [hkv]))
        cases v with
        | strV s =>
          have hstream : renderMembers ((k, MVal.strV s) :: kv2 :: ms2) rest =
              '"' :: (k ++ '"' :: ':' :: '"' ::
                (escString s ++ '"' :: ',' ::
                  renderMembers (kv2 :: ms2) rest)) := by
            simp [renderMembers, renderMember, renderVal]
          rw [hstream]
          match g, hf with
          | g2 + 1, _ =>
            have hkp := parseJStr_plain k (':' :: '"' ::
              (escString s ++ '"' :: ',' ::
                renderMembers (kv2 :: ms2) rest)) hkey
            have hval := parseValue_strVal g2 s
              (',' :: renderMembers (kv2 :: ms2) rest)
            have hsw : skipWs (renderMembers (kv2 :: ms2) rest) =
                renderMembers (kv2 :: ms2) rest := by
              rw [hteq]
              exact skipWs_quote t
            rw [parseMembers]
            simp only [hkp, skipWs_colon, skipWs_quote, hval, skipWs_comma,
              hsw, hrec]
            simp [MVal.toJson]
        | numV i =>
          have hstream : renderMembers ((k, MVal.numV i) :: kv2 :: ms2) rest =
              '"' :: (k ++ '"' :: ':' ::
                (intLit i ++ ',' :: renderMembers (kv2 :: ms2) rest)) := by
            simp [renderMembers, renderMember, renderVal]
          rw [hstream]
          match g, hf with
          | g2 + 1, _ =>
            have hkp := parseJStr_plain k (':' ::
              (intLit i ++ ',' :: renderMembers (kv2 :: ms2) rest)) hkey
            have hval := parseValue_intLit g2 i
              (',' :: renderMembers (kv2 :: ms2) rest)
              (fun hd h => by simp at h; rw [← h]; decide)
            have hsw : skipWs (renderMembers (kv2 :: ms2) rest) =
                renderMembers (kv2 :: ms2) rest := by
              rw [hteq]
              exact skipWs_quote t
            rw [parseMembers]
            simp only [hkp, skipWs_colon, skipWs_intLit, hval, skipWs_comma,
              hsw, hrec]
            simp [MVal.toJson]

/-- The JSON value that `json.Marshal` of a claim set denotes. -/
def claimsJson (c : JWTClaims) : Json :=
  .obj [("sub".data, .str c.sub), ("iss".data, .str c.iss),
        ("preferred_username".data, .str c.preferredUsername),
        ("email".data, .str c.email), ("name".data, .str c.name),
        ("given_name".data, .str c.givenName),
        ("family_name".data, .str c.familyName),
        ("exp".data, .num (intLit c.exp)), ("iat".data, .num (intLit c.iat))]

theorem parseValue_obj (F : Nat) (r : Str) :
    parseValue (F + 1) ('{' :: '"' :: r) =
      match parseMembers F ('"' :: r) with
      | some (ms, r3) => some (.obj ms, r3)
      | none => none := by
  simp [parseValue, skipWs_quote]

/-- The member description of a serialised claim set. -/
def claimsDesc (c : JWTClaims) : List (Str × MVal) :=
  [("sub".data, .strV c.sub), ("iss".data, .strV c.iss),
   ("preferred_username".data, .strV c.preferredUsername),
   ("email".data, .strV c.email), ("name".data, .strV c.name),
   ("given_name".data, .strV c.givenName),
   ("family_name".data, .strV c.familyName),
   ("exp".data, .numV c.exp), ("iat".data, .numV c.iat)]

theorem serializeClaims_renders (c : JWTClaims) (rest : Str) :
    serializeClaims c ++ rest = '{' :: renderMembers (claimsDesc c) rest := by
  simp [serializeClaims, claimsDesc, renderMembers, renderMember, renderVal,
    List.append_assoc]

theorem parseValue_serializeClaims (c : JWTClaims) (rest : Str) :
    ∀ F, 11 ≤ F →
      parseValue F (serializeClaims c ++ rest) = some (claimsJson c, rest) := by
  intro F hF
  match F, hF with
  | G + 1, hF =>
    rw [serializeClaims_renders]
    obtain ⟨t, ht⟩ := renderMembers_head (claimsDesc c) rest
      (by simp [claimsDesc])
    rw [ht, parseValue_obj G t, ← ht]
    rw [parseMembers_render (claimsDesc c) rest G (by simp [claimsDesc])
      (by simp [claimsDesc]; omega)
      (by
        intro kv hkv
        simp only [claimsDesc, List.mem_cons, List.not_mem_nil, or_false]
          at hkv
        rcases hkv with rfl | rfl | rfl | rfl | rfl | rfl | rfl | rfl | rfl <;>
          (simp only [plainKey]; decide))]
    simp [claimsDesc, claimsJson, MVal.toJson]

theorem serializeClaims_length (c : JWTClaims) :
    11 ≤ 2 * (serializeClaims c).length + 2 := by
  simp [serializeClaims, List.length_append]
  omega

theorem parseTop_serializeClaims (c : JWTClaims) :
    parseTop (serializeClaims c) = some (claimsJson c) := by
  have hp := parseValue_serializeClaims c []
    (2 * (serializeClaims c).length + 2) (serializeClaims_length c)
  rw [List.append_nil] at hp
  have hshape : serializeClaims c = '{' :: renderMembers (claimsDesc c) [] := by
    rw [← serializeClaims_renders c [], List.append_nil]
  have hskip : skipWs (serializeClaims c) = serializeClaims c := by
    rw [hshape]
    simp [skipWs, isJsonWs]
  unfold parseTop
  rw [hskip, hp]
  simp [skipWs]

theorem claimsSetField_sub (x : JWTClaims) (s : Str) :
    claimsSetField x ['s', 'u', 'b'] (Json.str s) = some { x with sub := s } :=
  rfl

theorem claimsSetField_iss (x : JWTClaims) (s : Str) :
    claimsSetField x ['i', 's', 's'] (Json.str s) = some { x with iss := s } :=
  rfl

theorem claimsSetField_pu (x : JWTClaims) (s : Str) :
    claimsSetField x ['p', 'r', 'e', 'f', 'e', 'r', 'r', 'e', 'd', '_', 'u',
      's', 'e', 'r', 'n', 'a', 'm', 'e'] (Json.str s) =
      some { x with preferredUsername := s } := rfl

theorem claimsSetField_email (x : JWTClaims) (s : Str) :
    claimsSetField x ['e', 'm', 'a', 'i', 'l'] (Json.str s) =
      some { x with email := s } := rfl

theorem claimsSetField_name (x : JWTClaims) (s : Str) :
    claimsSetField x ['n', 'a', 'm', 'e'] (Json.str s) =
      some { x with name := s } := rfl

theorem claimsSetField_gn (x : JWTClaims) (s : Str) :
    claimsSetField x ['g', 'i', 'v', 'e', 'n', '_', 'n', 'a', 'm', 'e'] (Json.str s) =
      some { x with givenName := s } := rfl

theorem claimsSetField_fn (x : JWTClaims) (s : Str) :
    claimsSetField x ['f', 'a', 'm', 'i', 'l', 'y', '_', 'n', 'a', 'm', 'e'] (Json.str s) =
      some { x with familyName := s } := rfl

theorem claimsSetField_exp (x : JWTClaims) (l : Str) :
    claimsSetField x ['e', 'x', 'p'] (Json.num l) =
      (goParseInt64 l).map (fun n => { x with exp := n }) := rfl

theorem claimsSetField_iat (x : JWTClaims) (l : Str) :
    claimsSetField x ['i', 'a', 't'] (Json.num l) =
      (goParseInt64 l).map (fun n => { x with iat := n }) := rfl

theorem claimsFromJson_claimsJson (c : JWTClaims)
    (hexp1 : -(2 ^ 63) ≤ c.exp) (hexp2 : c.exp ≤ 2 ^ 63 - 1)
    (hiat1 : -(2 ^ 63) ≤ c.iat) (hiat2 : c.iat ≤ 2 ^ 63 - 1) :
    claimsFromJson (claimsJson c) = some c := by
  obtain ⟨sub, iss, pu, em, na, gn, fn, ex, ia⟩ := c
  have he := goParseInt64_intLit ex hexp1 hexp2
  have hi := goParseInt64_intLit ia hiat1 hiat2
  simp only [claimsJson, claimsFromJson, List.foldl_cons, List.foldl_nil,
    Option.some_bind, claimsSetField_sub, claimsSetField_iss,
    claimsSetField_pu, claimsSetField_email, claimsSetField_name,
    claimsSetField_gn, claimsSetField_fn, claimsSetField_exp,
    claimsSetField_iat, he, hi, Option.map_some']

theorem decodeJWT_encode (c : JWTClaims) (h1 s3 : Str)
    (hh : '.' ∉ h1) (hs : '.' ∉ s3)
    (hexp1 : -(2 ^ 63) ≤ c.exp) (hexp2 : c.exp ≤ 2 ^ 63 - 1)
    (hiat1 : -(2 ^ 63) ≤ c.iat) (hiat2 : c.iat ≤ 2 ^ 63 - 1) :
    DecodeJWT (h1 ++ '.' ::
        (b64uEncode (utf8Encode (serializeClaims c)) ++ '.' :: s3)) =
      .ok c := by
  have hbytes := utf8Encode_lt256 (serializeClaims c)
  have hmid : '.' ∉ b64uEncode (utf8Encode (serializeClaims c)) :=
    b64uEncode_no_dot _ hbytes
  have hsplit := goSplit_three h1 _ s3 hh hmid hs
  simp only [DecodeJWT, hsplit, b64_roundtrip _ hbytes, utf8_roundtrip,
    parseTop_serializeClaims, claimsFromJson_claimsJson c hexp1 hexp2 hiat1
    hiat2]

theorem runActions_ok_append (pre rest : List ActionDef) :
    ∀ (env : Nat → HttpAnswer) (st st2 : CallState) (srv tok tn : Str)
      (m : List (Str × Str)),
      runActions env st srv tok tn m pre = (.ok (), st2) →
      runActions env st srv tok tn m (pre ++ rest) =
        runActions env st2 srv tok tn m rest := by
  induction pre with
  | nil =>
    intro env st st2 srv tok tn m h
    simp only [runActions] at h
    cases h
    simp
  | cons a pre ih =>
    intro env st st2 srv tok tn m h
    rw [runActions] at h
    rw [List.cons_append, runActions]
    cases hcur : lookupFirst m a.currentState with
    | none => rw [hcur] at h; simp only [] at h; cases h
    | some cid =>
      rw [hcur] at h
      simp only [] at h ⊢
      cases hnext : lookupFirst m a.nextState with
      | none => rw [hnext] at h; simp only [] at h; cases h
      | some nid =>
        rw [hnext] at h
        simp only [] at h ⊢
        rcases hca : CreateAction env st srv tok tn cid a.name nid a.roles
            a.assigneeCheck with ⟨res, st'⟩
        rw [hca] at h
        cases res with
        | error e => simp only [] at h; cases h
        | ok body =>
          simp only [] at h ⊢
          exact ih env st' st2 srv tok tn m h

theorem libSend_snd (env : Nat → HttpAnswer) (st : CallState) (ev : WfEvent) :
    (libSend env st ev).2 = ⟨st.calls + 1, st.trace ++ [ev]⟩ := by
  simp only [libSend]
  cases env st.calls with
  | error e => rfl
  | ok p =>
    obtain ⟨status, body⟩ := p
    by_cases h : 200 ≤ status ∧ status < 300 <;> simp [h]

theorem goSplit_mem_two (sep : Char) (s : Str) (h : sep ∈ s) :
    2 ≤ (goSplit sep s).length := by
  induction s with
  | nil => cases h
  | cons c rest ih =>
    by_cases hc : c = sep
    · have hne := goSplit_ne_nil sep rest
      simp only [goSplit, if_pos hc, List.length_cons]
      have h1 : 1 ≤ (goSplit sep rest).length := by
        cases hg : goSplit sep rest with
        | nil => exact absurd hg hne
        | cons g gs => simp
      omega
    · have hmem : sep ∈ rest := by
        rcases List.mem_cons.mp h with h1 | h2
        · exact absurd h1.symm hc
        · exact h2
      have h2 := ih hmem
      simp only [goSplit, if_neg hc]
      cases hg : goSplit sep rest with
      | nil => exact absurd hg (goSplit_ne_nil sep rest)
      | cons g gs =>
        rw [hg] at h2
        simpa using h2

theorem take_append_exact {α : Type} (l1 l2 : List α) (i : Nat) :
    (l1 ++ l2).take (l1.length + i) = l1 ++ l2.take i := by
  induction l1 with
  | nil => simp
  | cons a l1 ih => simp [Nat.succ_add, ih]

theorem take_append_le {α : Type} (l1 l2 : List α) (n : Nat)
    (h : n ≤ l1.length) : (l1 ++ l2).take n = l1.take n := by
  induction l1 generalizing n with
  | nil =>
    have : n = 0 := Nat.le_zero.mp h
    subst this
    simp
  | cons a l1 ih =>
    cases n with
    | zero => simp
    | succ n => simp [ih n (by simpa using h)]

theorem runStates_lookup_none (states : List StateDef) :
    ∀ (env : Nat → HttpAnswer) (st st' : CallState) (srv tok tn pid : Str)
      (m0 m : List (Str × Str)),
      runStates env st srv tok tn pid states m0 = (.ok m, st') →
      ∀ k, lookupFirst m0 k = none → (∀ s ∈ states, s.code ≠ k) →
        lookupFirst m k = none := by
  induction states with
  | nil =>
    intro env st st' srv tok tn pid m0 m h k h0 _
    simp only [runStates] at h
    cases h
    exact h0
  | cons s rest ih =>
    intro env st st' srv tok tn pid m0 m h k h0 hcode
    rw [runStates] at h
    rcases hcs : CreateState env st srv tok tn pid s.code s.name s.isInitial
        s.isParallel s.isJoin s.sla with ⟨res, st1⟩
    rw [hcs] at h
    cases res with
    | error e => simp only [] at h; cases h
    | ok body =>
      simp only [] at h
      cases hum : goUnmarshalMap body with
      | none => rw [hum] at h; simp only [] at h; cases h
      | some mo =>
        rw [hum] at h
        simp only [] at h
        cases hid : mapIdString mo with
        | none => rw [hid] at h; simp only [] at h; cases h
        | some sid =>
          rw [hid] at h
          simp only [] at h
          refine ih env st1 st' srv tok tn pid ((s.code, sid) :: m0) m h k ?_
            (fun x hx => hcode x (List.mem_cons_of_mem s hx))
          simp only [lookupFirst]
          rw [if_neg (hcode s (List.mem_cons_self s rest))]
          exact h0

theorem runStates_lookup_keep (states : List StateDef) :
    ∀ (env : Nat → HttpAnswer) (st st' : CallState) (srv tok tn pid : Str)
      (m0 m : List (Str × Str)),
      runStates env st srv tok tn pid states m0 = (.ok m, st') →
      ∀ k, lookupFirst m0 k ≠ none → lookupFirst m k ≠ none := by
  induction states with
  | nil =>
    intro env st st' srv tok tn pid m0 m h k h0
    simp only [runStates] at h
    cases h
    exact h0
  | cons s rest ih =>
    intro env st st' srv tok tn pid m0 m h k h0
    rw [runStates] at h
    rcases hcs : CreateState env st srv tok tn pid s.code s.name s.isInitial
        s.isParallel s.isJoin s.sla with ⟨res, st1⟩
    rw [hcs] at h
    cases res with
    | error e => simp only [] at h; cases h
    | ok body =>
      simp only [] at h
      cases hum : goUnmarshalMap body with
      | none => rw [hum] at h; simp only [] at h; cases h
      | some mo =>
        rw [hum] at h
        simp only [] at h
        cases hid : mapIdString mo with
        | none => rw [hid] at h; simp only [] at h; cases h
        | some sid =>
          rw [hid] at h
          simp only [] at h
          refine ih env st1 st' srv tok tn pid ((s.code, sid) :: m0) m h k ?_
          simp only [lookupFirst]
          by_cases hek : s.code = k
          · rw [if_pos hek]
            simp
          · rw [if_neg hek]
            exact h0

theorem runStates_lookup_some (states : List StateDef) :
    ∀ (env : Nat → HttpAnswer) (st st' : CallState) (srv tok tn pid : Str)
      (m0 m : List (Str × Str)),
      runStates env st srv tok tn pid states m0 = (.ok m, st') →
      ∀ k, (∃ s ∈ states, s.code = k) → lookupFirst m k ≠ none := by
  induction states with
  | nil =>
    intro env st st' srv tok tn pid m0 m h k hex
    obtain ⟨s, hs, _⟩ := hex
    simp at hs
  | cons s rest ih =>
    intro env st st' srv tok tn pid m0 m h k hex
    rw [runStates] at h
    rcases hcs : CreateState env st srv tok tn pid s.code s.name s.isInitial
        s.isParallel s.isJoin s.sla with ⟨res, st1⟩
    rw [hcs] at h
    cases res with
    | error e => simp only [] at h; cases h
    | ok body =>
      simp only [] at h
      cases hum : goUnmarshalMap body with
      | none => rw [hum] at h; simp only [] at h; cases h
      | some mo =>
        rw [hum] at h
        simp only [] at h
        cases hid : mapIdString mo with
        | none => rw [hid] at h; simp only [] at h; cases h
        | some sid =>
          rw [hid] at h
          simp only [] at h
          obtain ⟨s2, hs2, hcode⟩ := hex
          rcases List.mem_cons.mp hs2 with heq | hmem
          · subst heq
            refine runStates_lookup_keep rest env st1 st' srv tok tn pid
              ((s2.code, sid) :: m0) m h k ?_
            simp only [lookupFirst]
            rw [if_pos hcode]
            simp
          · exact ih env st1 st' srv tok tn pid ((s.code, sid) :: m0) m h k
              ⟨s2, hmem, hcode⟩

theorem runStates_trace_take (states : List StateDef) :
    ∀ (env : Nat → HttpAnswer) (st : CallState) (srv tok tn pid : Str)
      (m : List (Str × Str)),
      ∃ n, n ≤ states.length ∧
        ((runStates env st srv tok tn pid states m).2.trace.map kindOf =
          st.trace.map kindOf ++ (stateKinds states).take n) ∧
        (∀ r st', runStates env st srv tok tn pid states m = (.ok r, st') →
          n = states.length) := by
  induction states with
  | nil =>
    intro env st srv tok tn pid m
    exact ⟨0, Nat.le_refl 0, by simp [runStates, stateKinds],
      fun r st' h => rfl⟩
  | cons s rest ih =>
    intro env st srv tok tn pid m
    rw [runStates]
    by_cases hsrv : srv = []
    · refine ⟨0, Nat.zero_le _, by simp [CreateState, hsrv], ?_⟩
      intro r st' h
      simp [CreateState, hsrv] at h
    by_cases htn : tn = []
    · refine ⟨0, Nat.zero_le _, by simp [CreateState, hsrv, htn], ?_⟩
      intro r st' h
      simp [CreateState, hsrv, htn] at h
    by_cases hpid : pid = []
    · refine ⟨0, Nat.zero_le _, by simp [CreateState, hsrv, htn, hpid], ?_⟩
      intro r st' h
      simp [CreateState, hsrv, htn, hpid] at h
    have hcs : CreateState env st srv tok tn pid s.code s.name s.isInitial
        s.isParallel s.isJoin s.sla =
        libSend env st (.stateCall srv tok tn pid s.code s.name s.isInitial
          s.isParallel s.isJoin s.sla) := by
      simp [CreateState, hsrv, htn, hpid]
    rw [hcs]
    rcases hls : libSend env st (.stateCall srv tok tn pid s.code s.name
        s.isInitial s.isParallel s.isJoin s.sla) with ⟨res, stL⟩
    have hstL : stL = ⟨st.calls + 1, st.trace ++
        [.stateCall srv tok tn pid s.code s.name s.isInitial s.isParallel
          s.isJoin s.sla]⟩ := by
      have h2 := libSend_snd env st (.stateCall srv tok tn pid s.code s.name
        s.isInitial s.isParallel s.isJoin s.sla)
      rw [hls] at h2
      exact h2
    subst hstL
    cases res with
    | error e =>
      refine ⟨1, by simp, by simp [stateKinds, kindOf], ?_⟩
      intro r st' h
      simp only [] at h
      cases h
    | ok body =>
      simp only []
      cases hum : goUnmarshalMap body with
      | none =>
        refine ⟨1, by simp, by simp [stateKinds, kindOf], ?_⟩
        intro r st' h
        simp only [] at h
        cases h
      | some mo =>
        simp only []
        cases hid : mapIdString mo with
        | none =>
          refine ⟨1, by simp, by simp [stateKinds, kindOf], ?_⟩
          intro r st' h
          simp only [] at h
          cases h
        | some sid =>
          simp only []
          obtain ⟨n, hn, htr, hok⟩ := ih env ⟨st.calls + 1, st.trace ++
            [.stateCall srv tok tn pid s.code s.name s.isInitial s.isParallel
              s.isJoin s.sla]⟩ srv tok tn pid ((s.code, sid) :: m)
          refine ⟨n + 1, by simpa using hn, ?_, ?_⟩
          · rw [htr]
            simp [stateKinds, kindOf]
          · intro r st' h
            simp [hok r st' h]

theorem runActions_trace_take (actions : List ActionDef) :
    ∀ (env : Nat → HttpAnswer) (st : CallState) (srv tok tn : Str)
      (m : List (Str × Str)),
      ∃ n, n ≤ actions.length ∧
        ((runActions env st srv tok tn m actions).2.trace.map kindOf =
          st.trace.map kindOf ++ (actionKinds actions).take n) ∧
        (∀ st', runActions env st srv tok tn m actions = (.ok (), st') →
          n = actions.length) := by
  induction actions with
  | nil =>
    intro env st srv tok tn m
    exact ⟨0, Nat.le_refl 0, by simp [runActions, actionKinds],
      fun st' h => rfl⟩
  | cons a rest ih =>
    intro env st srv tok tn m
    rw [runActions]
    cases hcur : lookupFirst m a.currentState with
    | none =>
      refine ⟨0, Nat.zero_le _, by simp, ?_⟩
      intro st' h
      simp only [] at h
      cases h
    | some cid =>
      simp only []
      cases hnext : lookupFirst m a.nextState with
      | none =>
        refine ⟨0, Nat.zero_le _, by simp, ?_⟩
        intro st' h
        simp only [] at h
        cases h
      | some nid =>
        simp only []
        by_cases hsrv : srv = []
        · refine ⟨0, Nat.zero_le _, by simp [CreateAction, hsrv], ?_⟩
          intro st' h
          simp [CreateAction, hsrv] at h
        by_cases htn : tn = []
        · refine ⟨0, Nat.zero_le _, by simp [CreateAction, hsrv, htn], ?_⟩
          intro st' h
          simp [CreateAction, hsrv, htn] at h
        by_cases hcid : cid = []
        · refine ⟨0, Nat.zero_le _, by simp [CreateAction, hsrv, htn, hcid],
            ?_⟩
          intro st' h
          simp [CreateAction, hsrv, htn, hcid] at h
        have hca : CreateAction env st srv tok tn cid a.name nid a.roles
            a.assigneeCheck =
            libSend env st (.actionCall srv tok tn cid a.name nid a.roles
              a.assigneeCheck) := by
          simp [CreateAction, hsrv, htn, hcid]
        rw [hca]
        rcases hls : libSend env st (.actionCall srv tok tn cid a.name nid
            a.roles a.assigneeCheck) with ⟨res, stL⟩
        have hstL : stL = ⟨st.calls + 1, st.trace ++
            [.actionCall srv tok tn cid a.name nid a.roles a.assigneeCheck]⟩ := by
          have h2 := libSend_snd env st (.actionCall srv tok tn cid a.name nid
            a.roles a.assigneeCheck)
          rw [hls] at h2
          exact h2
        subst hstL
        cases res with
        | error e =>
          refine ⟨1, by simp, by simp [actionKinds, kindOf], ?_⟩
          intro st' h
          simp only [] at h
          cases h
        | ok body =>
          simp only []
          obtain ⟨n, hn, htr, hok⟩ := ih env ⟨st.calls + 1, st.trace ++
            [.actionCall srv tok tn cid a.name nid a.roles a.assigneeCheck]⟩
            srv tok tn m
          refine ⟨n + 1, by simpa using hn, ?_, ?_⟩
          · rw [htr]
            simp [actionKinds, kindOf]
          · intro st' h
            simp [hok st' h]

theorem runCreateWorkflow_kinds (srv tok tn : Str) (wd : WorkflowDefinition)
    (env : Nat → HttpAnswer) :
    ∃ n, ((runCreateWorkflow srv tok tn wd env).2.trace.map kindOf =
        (expectedKinds wd).take n) ∧
      (∀ summ st', runCreateWorkflow srv tok tn wd env = (.ok summ, st') →
        n = (expectedKinds wd).length) := by
  rw [runCreateWorkflow]
  by_cases hsrv : srv = []
  · refine ⟨0, by simp [CreateProcess, hsrv], ?_⟩
    intro summ st' h
    simp [CreateProcess, hsrv] at h
  by_cases htn : tn = []
  · refine ⟨0, by simp [CreateProcess, hsrv, htn], ?_⟩
    intro summ st' h
    simp [CreateProcess, hsrv, htn] at h
  have hcp : CreateProcess env {} srv tok tn wd.process.name wd.process.code
      wd.process.description wd.process.version wd.process.sla =
      libSend env {} (.procCall srv tok tn wd.process.name wd.process.code
        wd.process.description wd.process.version wd.process.sla) := by
    simp [CreateProcess, hsrv, htn]
  rw [hcp]
  rcases hls : libSend env {} (.procCall srv tok tn wd.process.name
      wd.process.code wd.process.description wd.process.version
      wd.process.sla) with ⟨res, stP⟩
  have hstP : stP = ⟨1, [.procCall srv tok tn wd.process.name wd.process.code
      wd.process.description wd.process.version wd.process.sla]⟩ := by
    have h2 := libSend_snd env {} (.procCall srv tok tn wd.process.name
      wd.process.code wd.process.description wd.process.version
      wd.process.sla)
    rw [hls] at h2
    simpa using h2
  subst hstP
  cases res with
  | error e =>
    refine ⟨1, by simp [expectedKinds, kindOf], ?_⟩
    intro summ st' h
    simp only [] at h
    cases h
  | ok body =>
    simp only []
    cases hum : goUnmarshalMap body with
    | none =>
      refine ⟨1, by simp [expectedKinds, kindOf], ?_⟩
      intro summ st' h
      simp only [] at h
      cases h
    | some mo =>
      simp only []
      cases hid : mapIdString mo with
      | none =>
        refine ⟨1, by simp [expectedKinds, kindOf], ?_⟩
        intro summ st' h
        simp only [] at h
        cases h
      | some pid =>
        simp only []
        obtain ⟨ns, hns, htrS, hokS⟩ := runStates_trace_take wd.states env
          ⟨1, [.procCall srv tok tn wd.process.name wd.process.code
            wd.process.description wd.process.version wd.process.sla]⟩
          srv tok tn pid []
        rcases hrs : runStates env ⟨1, [.procCall srv tok tn wd.process.name
            wd.process.code wd.process.description wd.process.version
            wd.process.sla]⟩ srv tok tn pid wd.states [] with ⟨resS, stS⟩
        rw [hrs] at htrS hokS
        cases resS with
        | error e =>
          refine ⟨1 + ns, ?_, ?_⟩
          · simp only [] at htrS ⊢
            rw [htrS]
            have : (expectedKinds wd).take (1 + ns) =
                WfKind.proc :: (stateKinds wd.states).take ns := by
              rw [expectedKinds]
              rw [Nat.add_comm 1 ns]
              simp only [List.take_succ_cons]
              rw [take_append_le _ _ ns (by simpa [stateKinds] using hns)]
            rw [this]
            simp [kindOf]
          · intro summ st' h
            simp only [] at h
            cases h
        | ok m =>
          have hnsFull : ns = wd.states.length := hokS m stS rfl
          simp only []
          obtain ⟨na, hna, htrA, hokA⟩ := runActions_trace_take wd.actions env
            stS srv tok tn m
          rcases hra : runActions env stS srv tok tn m wd.actions
            with ⟨resA, stA⟩
          rw [hra] at htrA hokA
          have htrS2 : stS.trace.map kindOf =
              WfKind.proc :: stateKinds wd.states := by
            simp only [] at htrS
            rw [htrS, hnsFull]
            have : (stateKinds wd.states).take wd.states.length =
                stateKinds wd.states := by
              rw [show wd.states.length = (stateKinds wd.states).length by
                simp [stateKinds]]
              exact List.take_length _
            rw [this]
            simp [kindOf]
          cases resA with
          | error e =>
            refine ⟨1 + (wd.states.length + na), ?_, ?_⟩
            · simp only [] at htrA ⊢
              rw [htrA, htrS2]
              have : (expectedKinds wd).take (1 + (wd.states.length + na)) =
                  WfKind.proc :: (stateKinds wd.states ++
                    (actionKinds wd.actions).take na) := by
                rw [expectedKinds, Nat.add_comm 1 _]
                simp only [List.take_succ_cons]
                rw [show wd.states.length = (stateKinds wd.states).length by
                  simp [stateKinds]]
                exact congrArg _ (take_append_exact _ _ na)
              rw [this]
              simp
            · intro summ st' h
              simp only [] at h
              cases h
          | ok u =>
            refine ⟨1 + (wd.states.length + wd.actions.length), ?_, ?_⟩
            · have hnaFull : na = wd.actions.length := hokA stA rfl
              simp only [] at htrA ⊢
              rw [htrA, htrS2, hnaFull]
              have hfull : (actionKinds wd.actions).take wd.actions.length =
                  actionKinds wd.actions := by
                rw [show wd.actions.length = (actionKinds wd.actions).length by
                  simp [actionKinds]]
                exact List.take_length _
              rw [hfull]
              have : (expectedKinds wd).take
                  (1 + (wd.states.length + wd.actions.length)) =
                  expectedKinds wd := by
                apply List.take_of_length_le
                simp [expectedKinds, stateKinds, actionKinds]
                omega
              rw [this]
              simp [expectedKinds]
            · intro summ st' h
              simp [expectedKinds, stateKinds, actionKinds]
              omega

theorem GetJWTToken_posts (server realm cid cs user pw : Str)
    (answer : HttpAnswer) (h1 : server ≠ []) (h2 : realm ≠ [])
    (h3 : cid ≠ []) (h4 : cs ≠ []) (h5 : user ≠ []) (h6 : pw ≠ []) :
    (GetJWTToken server realm cid cs user pw answer).2 =
      [⟨tokenEndpointURL server realm, passwordGrantForm cid cs user pw⟩] := by
  simp only [GetJWTToken, if_neg h1, if_neg h2, if_neg h3, if_neg h4,
    if_neg h5, if_neg h6]
  cases answer with
  | error e => rfl
  | ok p =>
    obtain ⟨status, body⟩ := p
    simp only []
    by_cases hst : status = 200
    · rw [if_neg (by simp [hst])]
      cases hp : parseTop body with
      | none => rfl
      | some j =>
        simp only []
        cases ht : tokenRespFromJson j <;> rfl
    · rw [if_pos hst]

theorem GetJWTToken_ok200 (server realm cid cs user pw body : Str)
    (j : Json) (tr : TokenResponse) (h1 : server ≠ []) (h2 : realm ≠ [])
    (h3 : cid ≠ []) (h4 : cs ≠ []) (h5 : user ≠ []) (h6 : pw ≠ [])
    (hp : parseTop body = some j) (ht : tokenRespFromJson j = some tr) :
    GetJWTToken server realm cid cs user pw (.ok (200, body)) =
      (.ok tr.accessToken,
       [⟨tokenEndpointURL server realm, passwordGrantForm cid cs user pw⟩]) := by
  simp only [GetJWTToken, if_neg h1, if_neg h2, if_neg h3, if_neg h4,
    if_neg h5, if_neg h6]
  rw [if_neg (by simp)]
  rw [hp]
  simp only []
  rw [ht]

theorem GetJWTToken_badStatus (server realm cid cs user pw body : Str)
    (status : Nat) (h1 : server ≠ []) (h2 : realm ≠ []) (h3 : cid ≠ [])
    (h4 : cs ≠ []) (h5 : user ≠ []) (h6 : pw ≠ []) (hst : status ≠ 200) :
    GetJWTToken server realm cid cs user pw (.ok (status, body)) =
      (.error ("failed to get token: ".data ++ body),
       [⟨tokenEndpointURL server realm, passwordGrantForm cid cs user pw⟩]) := by
  simp only [GetJWTToken, if_neg h1, if_neg h2, if_neg h3, if_neg h4,
    if_neg h5, if_neg h6]
  rw [if_pos hst]

theorem GetJWTToken_transport (server realm cid cs user pw e : Str)
    (h1 : server ≠ []) (h2 : realm ≠ []) (h3 : cid ≠ []) (h4 : cs ≠ [])
    (h5 : user ≠ []) (h6 : pw ≠ []) :
    GetJWTToken server realm cid cs user pw (.error e) =
      (.error ("failed to make token request: ".data ++ e),
       [⟨tokenEndpointURL server realm, passwordGrantForm cid cs user pw⟩]) := by
  simp only [GetJWTToken, if_neg h1, if_neg h2, if_neg h3, if_neg h4,
    if_neg h5, if_neg h6]

/-- C1: for the workflow definition with process `WF1`, states `A` (initial)
and `B`, and action `GO : A -> B`, with the remote service answering the
process creation with id `p1` and the state creations with ids `s1` and
`s2`, the orchestration issues the action creation with resolved current
state `s1` as the path parameter (the fourth recorded call, whose URL ends
in `/workflow/v1/state/s1/action`) and resolved next state `s2` in the
payload, and reports process id `p1`, 2 states created and 1 action
created. -/
theorem C1_workflow_scenario :
    runCreateWorkflow srv0 tok0 tn0 wdC1 envC1 =
      (.ok ⟨"p1".data, 2, 1⟩, ⟨4, traceC1⟩) ∧
    traceC1 =
      [.procCall srv0 tok0 tn0 [] "WF1".data [] [] 0,
       .stateCall srv0 tok0 tn0 "p1".data "A".data [] true false false 0,
       .stateCall srv0 tok0 tn0 "p1".data "B".data [] false false false 0,
       .actionCall srv0 tok0 tn0 "s1".data "GO".data "s2".data [] false] ∧
    (requestOfEvent evC1act).url =
      "https://srv/workflow/v1/state/s1/action".data ∧
    (requestOfEvent evC1act).body =
      "\x7b\n  \"name\": \"GO\",\n  \"nextState\": \"s2\",\n  \"attributeValidation\": \x7b\n    \"attributes\": \x7b\n      \"roles\": []\n    \x7d,\n    \"assigneeCheck\": false\n  \x7d\n\x7d".data := by
  refine ⟨by decide, by decide, by decide, by decide⟩

/-- C6: for every token and time, if the token decodes then `IsTokenExpired`
returns true exactly when `now + 30 > exp` (so a future `exp` more than 30
seconds away yields false, and a past `exp` or one within 30 seconds yields
true), with no error; if the token does not decode it is treated as expired
(`true` together with the decode error). -/
theorem C6_expiry_check (now : Int) (token : Str) :
    (∀ c, DecodeJWT token = .ok c →
      ((IsTokenExpired now token).1 = true ↔ now + 30 > c.exp) ∧
      (IsTokenExpired now token).2 = .ok ()) ∧
    (∀ e, DecodeJWT token = .error e →
      IsTokenExpired now token = (true, .error e)) := by
  constructor
  · intro c hc
    simp [IsTokenExpired, hc]
  · intro e he
    simp [IsTokenExpired, he]

/-- Witness for C6: the all-zero claim set gives an expired token at time
100 (`100 + 30 > 0`). -/
theorem C6_witness :
    DecodeJWT (mkToken claims0) = .ok claims0 ∧
    (IsTokenExpired 100 (mkToken claims0)).1 = true :=
  ⟨by decide,
   (((C6_expiry_check 100 (mkToken claims0)).1 claims0 (by decide)).1).2
     (by decide)⟩

/-- C8: `DecodeJWT` fails with the malformed-token error for every input
whose dot-split is not exactly three segments, and for a three-segment
input it succeeds exactly when the padded base64url decode of the middle
segment yields bytes that parse as a deserialisable claim set. -/
theorem C8_decode_failure :
    (∀ token : Str, (goSplit '.' token).length ≠ 3 →
      DecodeJWT token = .error invalidJWTMsg) ∧
    (∀ (token p1 p2 p3 : Str), goSplit '.' token = [p1, p2, p3] →
      ((∃ c, DecodeJWT token = .ok c) ↔
        ∃ bytes j c, b64uDecodeGo (padB64 p2) = some bytes ∧
          parseTop (utf8DecodeLossy bytes) = some j ∧
          claimsFromJson j = some c)) := by
  constructor
  · intro token h
    unfold DecodeJWT
    cases hl : goSplit '.' token with
    | nil => rfl
    | cons a t =>
      rw [hl] at h
      cases t with
      | nil => rfl
      | cons b t2 =>
        cases t2 with
        | nil => rfl
        | cons c3 t3 =>
          cases t3 with
          | nil => simp at h
          | cons d t4 => rfl
  · intro token p1 p2 p3 heq
    constructor
    · rintro ⟨c, hc⟩
      simp only [DecodeJWT, heq] at hc
      cases hb : b64uDecodeGo (padB64 p2) with
      | none => rw [hb] at hc; simp at hc
      | some bytes =>
        rw [hb] at hc
        simp only [] at hc
        cases hp : parseTop (utf8DecodeLossy bytes) with
        | none => rw [hp] at hc; simp at hc
        | some j =>
          rw [hp] at hc
          simp only [] at hc
          cases hj : claimsFromJson j with
          | none => rw [hj] at hc; simp at hc
          | some c2 => exact ⟨bytes, j, c2, rfl, hp, hj⟩
    · rintro ⟨bytes, j, c, hb, hp, hj⟩
      exact ⟨c, by simp [DecodeJWT, heq, hb, hp, hj]⟩

/-- Witness for C8: a two-segment token is rejected with the malformed-token
error. -/
theorem C8_witness :
    (goSplit '.' ("a.b".data)).length ≠ 3 ∧
    DecodeJWT ("a.b".data) = .error invalidJWTMsg :=
  ⟨by decide, C8_decode_failure.1 ("a.b".data) (by decide)⟩

/-- C9: serialising any claim set (with in-range `exp` and `iat`), encoding
it base64url without padding, and placing it as the middle segment of a
three-segment token decodes back to an equal claim set. -/
theorem C9_encode_decode_roundtrip (c : JWTClaims) (h1 s3 : Str)
    (hh : '.' ∉ h1) (hs : '.' ∉ s3)
    (hexp1 : -(2 ^ 63) ≤ c.exp) (hexp2 : c.exp ≤ 2 ^ 63 - 1)
    (hiat1 : -(2 ^ 63) ≤ c.iat) (hiat2 : c.iat ≤ 2 ^ 63 - 1) :
    DecodeJWT (h1 ++ '.' ::
        (b64uEncode (utf8Encode (serializeClaims c)) ++ '.' :: s3)) =
      .ok c :=
  decodeJWT_encode c h1 s3 hh hs hexp1 hexp2 hiat1 hiat2

/-- Witness for C9: the round trip at a concrete claim set. -/
theorem C9_witness :
    DecodeJWT ("h".data ++ '.' ::
        (b64uEncode (utf8Encode (serializeClaims claimsC9)) ++ '.' ::
          "s".data)) = .ok claimsC9 ∧
    ('.' ∉ "h".data) ∧ ('.' ∉ "s".data) :=
  ⟨C9_encode_decode_roundtrip claimsC9 "h".data "s".data (by decide)
     (by decide) (by decide) (by decide) (by decide) (by decide),
   by decide, by decide⟩

/-- C10: the result of `DecodeJWT` — and of `ExtractTenantID`,
`ExtractClientID` and `IsTokenExpired` — depends only on the middle
dot-separated segment: two three-segment tokens with equal middle segments
give equal results, whatever their header and signature segments (the
signature is never verified). -/
theorem C10_middle_segment_only (t1 t2 a m b a2 b2 : Str)
    (hs1 : goSplit '.' t1 = [a, m, b]) (hs2 : goSplit '.' t2 = [a2, m, b2]) :
    DecodeJWT t1 = DecodeJWT t2 ∧
    ExtractTenantID t1 = ExtractTenantID t2 ∧
    ExtractClientID t1 = ExtractClientID t2 ∧
    ∀ now, IsTokenExpired now t1 = IsTokenExpired now t2 := by
  have hd : DecodeJWT t1 = DecodeJWT t2 := by
    unfold DecodeJWT
    rw [hs1, hs2]
  refine ⟨hd, ?_, ?_, ?_⟩
  · unfold ExtractTenantID
    rw [hd]
  · unfold ExtractClientID
    rw [hd]
  · intro now
    unfold IsTokenExpired
    rw [hd]

/-- Witness for C10: two tokens differing only in header and signature. -/
theorem C10_witness :
    DecodeJWT ("x.AA.y".data) = DecodeJWT ("zz.AA.w".data) :=
  (C10_middle_segment_only ("x.AA.y".data) ("zz.AA.w".data) ("x".data)
    ("AA".data) ("y".data) ("zz".data) ("w".data) (by decide) (by decide)).1

/-- C2 (amended): `GetValidJWTToken` returns the cached token when one is
present and decodably unexpired, and invokes refresh (returning its result)
when the cached token decodes as expired; however — correcting the claim —
when no token is cached, or the cached token cannot be decoded, it fails
without invoking refresh (no POST is issued). -/
theorem C2_token_cache (now : Int) (cfg : Config) (answer : HttpAnswer) :
    (cfg.jwtToken = [] →
      GetValidJWTToken now cfg answer = (.error noTokenMsg, [])) ∧
    (∀ e, cfg.jwtToken ≠ [] → DecodeJWT cfg.jwtToken = .error e →
      GetValidJWTToken now cfg answer =
        (.error ("failed to validate token: ".data ++ e), [])) ∧
    (∀ c, cfg.jwtToken ≠ [] → DecodeJWT cfg.jwtToken = .ok c →
      ¬ now + 30 > c.exp →
      GetValidJWTToken now cfg answer = (.ok (cfg.jwtToken, cfg), [])) ∧
    (∀ c, cfg.jwtToken ≠ [] → DecodeJWT cfg.jwtToken = .ok c →
      now + 30 > c.exp →
      GetValidJWTToken now cfg answer =
        (match RefreshToken cfg answer with
         | (.error e, posts) =>
           (.error ("failed to refresh token: ".data ++ e), posts)
         | (.ok p, posts) => (.ok p, posts))) := by
  refine ⟨?_, ?_, ?_, ?_⟩
  · intro h
    simp [GetValidJWTToken, h]
  · intro e hne he
    simp [GetValidJWTToken, if_neg hne, IsTokenExpired, he]
  · intro c hne hc hlt
    simp [GetValidJWTToken, if_neg hne, IsTokenExpired, hc,
      decide_eq_false hlt]
  · intro c hne hc hgt
    have hd : decide (now + 30 > c.exp) = true := decide_eq_true hgt
    simp only [GetValidJWTToken, if_neg hne, IsTokenExpired, hc, hd]
    rcases hr : RefreshToken cfg answer with ⟨res, posts⟩
    cases res with
    | error e => simp
    | ok p =>
      obtain ⟨t, c2⟩ := p
      simp

/-- Counterexample for C2: with credentials cached and a working endpoint,
a missing cached token does not trigger a refresh but fails outright (no
POST issued), and so does an undecodable cached token — even though a
refresh would have succeeded and returned `T2`. -/
theorem C2_counterexample :
    GetValidJWTToken 100 cfgNoTok ansT2 = (.error noTokenMsg, []) ∧
    GetValidJWTToken 100 cfgBadTok ansT2 =
      (.error ("failed to validate token: ".data ++ invalidJWTMsg), []) ∧
    RefreshToken cfgNoTok ansT2 =
      (.ok ("T2".data, { cfgNoTok with jwtToken := "T2".data }), [reqC4]) := by
  refine ⟨by decide, by decide, by decide⟩

/-- Witness for C2: a fresh cached token at time 100 is returned as is,
with no POST issued. -/
theorem C2_witness :
    cfgFresh.jwtToken ≠ [] ∧
    DecodeJWT cfgFresh.jwtToken = .ok claimsFresh ∧
    ¬ (100 : Int) + 30 > claimsFresh.exp ∧
    GetValidJWTToken 100 cfgFresh ansT2 =
      (.ok (cfgFresh.jwtToken, cfgFresh), []) :=
  ⟨by decide, by decide, by decide,
   (C2_token_cache 100 cfgFresh ansT2).2.2.1 claimsFresh (by decide)
     (by decide) (by decide)⟩

/-- C3: when the orchestration reaches the action loop (process created,
its id extracted, every state created, all earlier actions processed
successfully up to call state `st2`), an action whose current-state code
names no state of the definition makes the orchestration fail with the
unresolved-state error naming that code, and likewise an action whose
current state resolves but whose next-state code names no state fails with
the unresolved-state error naming the missing next-state code; in both
cases the recorded calls end at `st2` — the state reached before that
action — so no action-creation call is issued for it. -/
theorem C3_unresolved_state (env : Nat → HttpAnswer)
    (srv tok tn pid body : Str) (mo : Option (List (Str × Json)))
    (wd : WorkflowDefinition) (m : List (Str × Str))
    (st0 st1 st2 : CallState) (pre post : List ActionDef) (a : ActionDef)
    (hproc : CreateProcess env {} srv tok tn wd.process.name wd.process.code
      wd.process.description wd.process.version wd.process.sla =
      (.ok body, st0))
    (hum : goUnmarshalMap body = some mo)
    (hid : mapIdString mo = some pid)
    (hstates : runStates env st0 srv tok tn pid wd.states [] = (.ok m, st1))
    (hacts : wd.actions = pre ++ a :: post)
    (hpre : runActions env st1 srv tok tn m pre = (.ok (), st2)) :
    ((∀ s ∈ wd.states, s.code ≠ a.currentState) →
      runCreateWorkflow srv tok tn wd env =
        (.error ("state ID not found for current state: ".data ++
          a.currentState), st2)) ∧
    ((∃ s ∈ wd.states, s.code = a.currentState) →
      (∀ s ∈ wd.states, s.code ≠ a.nextState) →
      runCreateWorkflow srv tok tn wd env =
        (.error ("state ID not found for next state: ".data ++
          a.nextState), st2)) := by
  have hred : runCreateWorkflow srv tok tn wd env =
      (match runActions env st2 srv tok tn m (a :: post) with
       | (.error e, st3) => (.error e, st3)
       | (.ok _, st3) =>
         (.ok ⟨pid, wd.states.length, wd.actions.length⟩, st3)) := by
    simp only [runCreateWorkflow, hproc, hum, hid, hstates]
    rw [hacts, runActions_ok_append pre (a :: post) env st1 st2 srv tok tn m
      hpre]
  constructor
  · intro hmiss
    have hlook : lookupFirst m a.currentState = none :=
      runStates_lookup_none wd.states env st0 st1 srv tok tn pid [] m hstates
        a.currentState rfl hmiss
    rw [hred, runActions]
    simp [hlook]
  · intro hcur hnext
    have hlookN : lookupFirst m a.nextState = none :=
      runStates_lookup_none wd.states env st0 st1 srv tok tn pid [] m hstates
        a.nextState rfl hnext
    have hlookC : lookupFirst m a.currentState ≠ none :=
      runStates_lookup_some wd.states env st0 st1 srv tok tn pid [] m hstates
        a.currentState hcur
    obtain ⟨cid, hcid⟩ : ∃ cid, lookupFirst m a.currentState = some cid := by
      cases hc : lookupFirst m a.currentState with
      | none => exact absurd hc hlookC
      | some cid => exact ⟨cid, rfl⟩
    rw [hred, runActions]
    simp [hcid, hlookN]

/-- Witness for C3, exercising both branches: `wdC3` (one state `A`, one
action whose current state is the missing `Z`) fails naming `Z` in the
current-state message, and `wdC3b` (one state `A`, one action `A -> Z`)
fails naming `Z` in the next-state message; both stop after exactly the
process call and the one state call. -/
theorem C3_witness :
    ((∀ s ∈ wdC3.states, s.code ≠ actC3.currentState) ∧
     runCreateWorkflow srv0 tok0 tn0 wdC3 envC1 =
       (.error ("state ID not found for current state: ".data ++
         actC3.currentState), st1C3)) ∧
    ((∀ s ∈ wdC3b.states, s.code ≠ actC3b.nextState) ∧
     runCreateWorkflow srv0 tok0 tn0 wdC3b envC1 =
       (.error ("state ID not found for next state: ".data ++
         actC3b.nextState), st1C3)) :=
  ⟨⟨by decide,
    (C3_unresolved_state envC1 srv0 tok0 tn0 ("p1".data)
      ("\x7b\"id\":\"p1\"\x7d".data)
      (some [("id".data, Json.str ("p1".data))]) wdC3
      [("A".data, "s1".data)] st0C3 st1C3 st1C3 [] [] actC3
      (by decide) rfl (by decide) (by decide) rfl rfl).1 (by decide)⟩,
   ⟨by decide,
    (C3_unresolved_state envC1 srv0 tok0 tn0 ("p1".data)
      ("\x7b\"id\":\"p1\"\x7d".data)
      (some [("id".data, Json.str ("p1".data))]) wdC3b
      [("A".data, "s1".data)] st0C3 st1C3 st1C3 [] [] actC3b
      (by decide) rfl (by decide) (by decide) rfl rfl).2
      ⟨{ code := "A".data, isInitial := true }, by decide⟩ (by decide)⟩⟩

/-- C4: `RefreshToken` fails with the no-credentials error when no
credential set is cached; otherwise it POSTs the form-encoded password
grant to the realm's token endpoint exactly once (also exactly once per
expired-token detection through `GetValidJWTToken`, with no retry), stores
and returns the access token on a parseable 200 response, and surfaces a
non-200 response or transport failure as an authentication error carrying
the response body; concretely, with cached credentials and an expired
cached token against an endpoint answering with access token `T2`,
`GetValidJWTToken` returns `T2` and the cached token becomes `T2`. -/
theorem C4_refresh :
    (∀ (cfg : Config) (answer : HttpAnswer), cfg.authConfig = none →
      RefreshToken cfg answer = (.error noAuthConfigMsg, [])) ∧
    (∀ (cfg : Config) (ac : AuthConfig) (answer : HttpAnswer),
      cfg.authConfig = some ac → ac.serverURL ≠ [] → ac.realm ≠ [] →
      ac.clientID ≠ [] → ac.clientSecret ≠ [] → ac.username ≠ [] →
      ac.password ≠ [] →
      ((RefreshToken cfg answer).2 =
        [⟨tokenEndpointURL ac.serverURL ac.realm,
          passwordGrantForm ac.clientID ac.clientSecret ac.username
            ac.password⟩] ∧
       (∀ body j tr, answer = .ok (200, body) → parseTop body = some j →
         tokenRespFromJson j = some tr →
         (RefreshToken cfg answer).1 =
           .ok (tr.accessToken, { cfg with jwtToken := tr.accessToken })) ∧
       (∀ status body, answer = .ok (status, body) → status ≠ 200 →
         (RefreshToken cfg answer).1 =
           .error ("failed to authenticate with Keycloak: ".data ++
             ("failed to get token: ".data ++ body))) ∧
       (∀ e, answer = .error e →
         (RefreshToken cfg answer).1 =
           .error ("failed to authenticate with Keycloak: ".data ++
             ("failed to make token request: ".data ++ e))))) ∧
    (∀ (now : Int) (cfg : Config) (answer : HttpAnswer) (c : JWTClaims),
      cfg.jwtToken ≠ [] → DecodeJWT cfg.jwtToken = .ok c →
      now + 30 > c.exp →
      (GetValidJWTToken now cfg answer).2 = (RefreshToken cfg answer).2) ∧
    GetValidJWTToken 100 cfgC4 ansT2 =
      (.ok ("T2".data, { cfgC4 with jwtToken := "T2".data }), [reqC4]) := by
  refine ⟨?_, ?_, ?_, by decide⟩
  · intro cfg answer h
    simp [RefreshToken, h]
  · intro cfg ac answer hac h1 h2 h3 h4 h5 h6
    refine ⟨?_, ?_, ?_, ?_⟩
    · simp only [RefreshToken, hac]
      have hp := GetJWTToken_posts ac.serverURL ac.realm ac.clientID
        ac.clientSecret ac.username ac.password answer h1 h2 h3 h4 h5 h6
      rcases hg : GetJWTToken ac.serverURL ac.realm ac.clientID
          ac.clientSecret ac.username ac.password answer with ⟨res, posts⟩
      rw [hg] at hp
      cases res <;> simpa using hp
    · intro body j tr ha hp ht
      subst ha
      simp only [RefreshToken, hac]
      rw [GetJWTToken_ok200 ac.serverURL ac.realm ac.clientID ac.clientSecret
        ac.username ac.password body j tr h1 h2 h3 h4 h5 h6 hp ht]
    · intro status body ha hst
      subst ha
      simp only [RefreshToken, hac]
      rw [GetJWTToken_badStatus ac.serverURL ac.realm ac.clientID
        ac.clientSecret ac.username ac.password body status h1 h2 h3 h4 h5 h6
        hst]
    · intro e ha
      subst ha
      simp only [RefreshToken, hac]
      rw [GetJWTToken_transport ac.serverURL ac.realm ac.clientID
        ac.clientSecret ac.username ac.password e h1 h2 h3 h4 h5 h6]
  · intro now cfg answer c hne hc hgt
    have hd : decide (now + 30 > c.exp) = true := decide_eq_true hgt
    simp only [GetValidJWTToken, if_neg hne, IsTokenExpired, hc, hd]
    rcases hr : RefreshToken cfg answer with ⟨res, posts⟩
    cases res with
    | error e => simp
    | ok p =>
      obtain ⟨t, c2⟩ := p
      simp

/-- Witness for C4: the non-scenario conjuncts applied at the concrete
configuration `cfgC4`. -/
theorem C4_witness :
    (RefreshToken cfgC4 ansT2).2 = [reqC4] ∧
    (GetValidJWTToken 100 cfgC4 ansT2).2 = (RefreshToken cfgC4 ansT2).2 :=
  ⟨(C4_refresh.2.1 cfgC4 acC4 ansT2 rfl (by decide) (by decide) (by decide)
      (by decide) (by decide) (by decide)).1,
   C4_refresh.2.2.1 100 cfgC4 ansT2 claims0 (by decide) (by decide)
     (by decide)⟩

/-- C5 (amended): for every decodable token, `ExtractTenantID` returns the
part of the issuer after the last `/` whenever the issuer contains a `/`
and that last part is nonempty — so, correcting the claim, an issuer such
as `https://host` with no path segments still succeeds (with the host) —
and it fails with the invalid-issuer error when the issuer has no `/` at
all (in particular when absent/empty), and with the no-realm error when
the part after the last `/` is empty. -/
theorem C5_extract_tenant :
    (∀ (token : Str) (c : JWTClaims), DecodeJWT token = .ok c →
      (('/' ∉ c.iss) → ExtractTenantID token = .error invalidIssuerMsg) ∧
      ('/' ∈ c.iss → (goSplit '/' c.iss).getLastD [] ≠ [] →
        ExtractTenantID token = .ok ((goSplit '/' c.iss).getLastD [])) ∧
      ('/' ∈ c.iss → (goSplit '/' c.iss).getLastD [] = [] →
        ExtractTenantID token = .error noRealmMsg)) ∧
    ExtractTenantID (mkToken claimsACME) = .ok ("ACME".data) := by
  constructor
  · intro token c hc
    refine ⟨?_, ?_, ?_⟩
    · intro hnot
      have hsp := goSplit_no_sep '/' c.iss hnot
      simp [ExtractTenantID, hc, hsp]
    · intro hmem hne
      have hlen := goSplit_mem_two '/' c.iss hmem
      simp only [ExtractTenantID, hc]
      rw [if_neg (by omega)]
      rw [if_neg hne]
    · intro hmem hemp
      have hlen := goSplit_mem_two '/' c.iss hmem
      simp only [ExtractTenantID, hc]
      rw [if_neg (by omega)]
      rw [if_pos hemp]
  · decide

/-- Counterexample for C5: an issuer with a host but no path segments does
not fail — it returns the host. -/
theorem C5_counterexample :
    claimsHost.iss = "https://host".data ∧
    DecodeJWT (mkToken claimsHost) = .ok claimsHost ∧
    ExtractTenantID (mkToken claimsHost) = .ok ("host".data) :=
  ⟨rfl, by decide, by decide⟩

/-- Witness for C5: the realm-bearing issuer of `claimsACME` yields its
last `/`-delimited component, which is `ACME`. -/
theorem C5_witness :
    ('/' ∈ claimsACME.iss) ∧
    ExtractTenantID (mkToken claimsACME) =
      .ok ((goSplit '/' claimsACME.iss).getLastD []) ∧
    (goSplit '/' claimsACME.iss).getLastD [] = "ACME".data :=
  ⟨by decide,
   (C5_extract_tenant.1 (mkToken claimsACME) claimsACME (by decide)).2.1
     (by decide) (by decide),
   by decide⟩

/-- C7: every run's recorded creation calls are, in order, an initial
segment of the canonical sequence — the process first, then the states in
definition order, then the actions in definition order (so no action call
is ever issued before all state calls) — and the run stops at the first
failing step, issuing nothing further; a successful run realises the whole
sequence. -/
theorem C7_sequential_order (srv tok tn : Str) (wd : WorkflowDefinition)
    (env : Nat → HttpAnswer) :
    (∃ n, (runCreateWorkflow srv tok tn wd env).2.trace.map kindOf =
        (expectedKinds wd).take n) ∧
    (∀ summ st', runCreateWorkflow srv tok tn wd env = (.ok summ, st') →
      st'.trace.map kindOf = expectedKinds wd) := by
  obtain ⟨n, htr, hok⟩ := runCreateWorkflow_kinds srv tok tn wd env
  refine ⟨⟨n, htr⟩, ?_⟩
  intro summ st' h
  have hst : st' = (runCreateWorkflow srv tok tn wd env).2 := by rw [h]
  rw [hst, htr, hok summ st' h]
  exact List.take_length _

/-- Witness for C7: the successful `wdC1` run realises the full canonical
sequence. -/
theorem C7_witness :
    runCreateWorkflow srv0 tok0 tn0 wdC1 envC1 =
      (.ok ⟨"p1".data, 2, 1⟩, ⟨4, traceC1⟩) ∧
    (⟨4, traceC1⟩ : CallState).trace.map kindOf = expectedKinds wdC1 :=
  ⟨by decide,
   (C7_sequential_order srv0 tok0 tn0 wdC1 envC1).2 ⟨"p1".data, 2, 1⟩
     ⟨4, traceC1⟩ (by decide)⟩
